import Mathlib

/-!
ATM withdrawal evaluator (`src/index.cpp`)

A shallow embedding of the single function `main` of `src/index.cpp`.

* The three values that the successive `cin >>` extractions would deliver are the
  arguments of the embedding. An extraction that the program never reaches simply leaves
  its argument unused, and `choiceRead` records whether `cin >> choice` was executed.
* Every `return 0` / fall-through of the source ends in one record `Run`, which keeps the
  final value of `accountBalance` together with the values the run computed on its way.
* The arithmetic of lines 41-43, 56, 60 and 68 is embedded in two readings that share the
  control flow line by line:
  - `main` takes the amounts as exact decimals (rationals, `0.04` is `4 / 100`);
  - `main64` computes as the source does, in `double`: every operation is rounded to
    binary64 by `fl` (round to nearest, ties to even, gradual underflow, each operation
    rounded on its own), the literal `0.04` is the nearest double, and the amounts
    delivered are finite doubles (`IsDouble`). Every value the program computes is bounded
    by the larger of the balance and `525`, so `fl` does not need an overflow case.
-/

namespace Atm

/-- Terminal branch taken by `main`, identified by the message it prints. -/
inductive Outcome where
  /-- Line 17: "Withdrawal not allowed. Your account has insufficient or negative balance." -/
  | RejectedNoBalance
  /-- Line 27: "Invalid withdrawal amount." -/
  | RejectedInvalidAmount
  /-- Line 33: "You can only withdraw a maximum of $500 per day." -/
  | RejectedExceedsDailyLimit
  /-- Line 69: "Transaction successful. $.. withdrawn.", line 45 not executed. -/
  | CompletedStandard
  /-- Line 69: "Transaction successful. $.. withdrawn.", after line 45 announced a charge. -/
  | CompletedWithServiceCharge
  /-- Line 61: "Transaction successful with $25.00 charge." -/
  | CompletedWithLowFundsCharge
  /-- Line 58: "Still not enough funds. Transaction canceled." -/
  | RejectedStillInsufficient
  /-- Line 65: "Transaction canceled by user." -/
  | CancelledByUser
  deriving DecidableEq, Repr

/-- Line 7: `const double MAX_WITHDRAWAL = 500.0;` -/
def MAX_WITHDRAWAL : ℚ := 500

/-- Line 8: `const double SERVICE_CHARGE_RATE = 0.04;` -/
def SERVICE_CHARGE_RATE : ℚ := 4 / 100

/-- Line 9: `const double LOW_FUNDS_CHARGE = 25.0;` -/
def LOW_FUNDS_CHARGE : ℚ := 25

/-- What one run of `main` leaves behind. -/
structure Run where
  /-- The terminal branch. -/
  outcome : Outcome
  /-- Value of the variable `accountBalance` when `main` returns. -/
  accountBalance : ℚ
  /-- Value of `serviceCharge` (line 42, printed on line 45) when the block of
  lines 40-46 was executed. -/
  serviceCharge : Option ℚ
  /-- Value of `totalDeduction` tested by the funds check of line 49, when reached. -/
  totalDeduction : Option ℚ
  /-- Value assigned to `totalDeduction` on line 56, when reached. -/
  fallbackDeduction : Option ℚ
  /-- Whether `cin >> choice` (line 53) was executed. -/
  choiceRead : Bool
  /-- Number of executions of `accountBalance -= totalDeduction` (lines 60 and 68). -/
  debits : Nat
  deriving DecidableEq, Repr

/-- The function `main` of `src/index.cpp`, lines 4-74. The arguments are the values
delivered by `cin >> accountBalance`, `cin >> withdrawalAmount` and `cin >> choice`. -/
def main (accountBalance withdrawalAmount : ℚ) (choice : Char) : Run :=
  -- lines 16-19
  if accountBalance ≤ 0 then
    { outcome := .RejectedNoBalance, accountBalance := accountBalance,
      serviceCharge := none, totalDeduction := none, fallbackDeduction := none,
      choiceRead := false, debits := 0 }
  -- lines 26-29
  else if withdrawalAmount ≤ 0 then
    { outcome := .RejectedInvalidAmount, accountBalance := accountBalance,
      serviceCharge := none, totalDeduction := none, fallbackDeduction := none,
      choiceRead := false, debits := 0 }
  -- lines 32-35
  else if withdrawalAmount > MAX_WITHDRAWAL then
    { outcome := .RejectedExceedsDailyLimit, accountBalance := accountBalance,
      serviceCharge := none, totalDeduction := none, fallbackDeduction := none,
      choiceRead := false, debits := 0 }
  else
    -- line 37
    let totalDeduction : ℚ := withdrawalAmount
    -- lines 40-46: the updated `totalDeduction` and the charge announced on line 45
    let charged : ℚ × Option ℚ :=
      if withdrawalAmount > 300 then
        let extra := withdrawalAmount - 300
        let serviceCharge := extra * SERVICE_CHARGE_RATE
        (totalDeduction + serviceCharge, some serviceCharge)
      else (totalDeduction, none)
    let totalDeduction : ℚ := charged.1
    let serviceCharge : Option ℚ := charged.2
    -- line 49
    if totalDeduction > accountBalance then
      -- line 55
      if choice = 'Y' ∨ choice = 'y' then
        -- line 56
        let fallback := withdrawalAmount + LOW_FUNDS_CHARGE
        -- line 57
        if fallback > accountBalance then
          { outcome := .RejectedStillInsufficient, accountBalance := accountBalance,
            serviceCharge := serviceCharge, totalDeduction := some totalDeduction,
            fallbackDeduction := some fallback, choiceRead := true, debits := 0 }
        else
          -- lines 60-62
          { outcome := .CompletedWithLowFundsCharge,
            accountBalance := accountBalance - fallback,
            serviceCharge := serviceCharge, totalDeduction := some totalDeduction,
            fallbackDeduction := some fallback, choiceRead := true, debits := 1 }
      else
        -- line 65
        { outcome := .CancelledByUser, accountBalance := accountBalance,
          serviceCharge := serviceCharge, totalDeduction := some totalDeduction,
          fallbackDeduction := none, choiceRead := true, debits := 0 }
    else
      -- lines 68-70
      { outcome := if serviceCharge.isSome then .CompletedWithServiceCharge
                   else .CompletedStandard,
        accountBalance := accountBalance - totalDeduction,
        serviceCharge := serviceCharge, totalDeduction := some totalDeduction,
        fallbackDeduction := none, choiceRead := false, debits := 1 }


/-! ## Binary64 arithmetic -/

/-- Round to the nearest integer, ties to the even one. -/
def roundEven (q : ℚ) : ℤ :=
  if q - ⌊q⌋ < 1 / 2 then ⌊q⌋
  else if 1 / 2 < q - ⌊q⌋ then ⌊q⌋ + 1
  else if ⌊q⌋ % 2 = 0 then ⌊q⌋ else ⌊q⌋ + 1

/-- Exponent of the unit in the last place of binary64 at `x`: 52 below the binade of
`x`, the binade being held at `-1022` in the subnormal range. -/
def ulpExp (x : ℚ) : ℤ := max (Int.log 2 |x|) (-1022) - 52

/-- Binary64 rounding of an exact result: the nearest multiple of the unit in the last
place, ties to even. -/
def fl (x : ℚ) : ℚ := (roundEven (x / 2 ^ ulpExp x) : ℚ) * 2 ^ ulpExp x

/-- The finite values of type `double`. -/
def IsDouble (x : ℚ) : Prop := fl x = x ∧ |x| < 2 ^ 1024

instance (x : ℚ) : Decidable (IsDouble x) := by
  unfold IsDouble
  infer_instance

/-- Line 8 as compiled: the `double` nearest to the literal `0.04`. -/
def SERVICE_CHARGE_RATE_64 : ℚ := fl (4 / 100)

/-- The function `main` of `src/index.cpp`, lines 4-74, in `double` arithmetic. The
arguments are the values delivered by `cin >> accountBalance`, `cin >> withdrawalAmount`
and `cin >> choice`; comparisons are exact, every arithmetic operation is rounded. -/
def main64 (accountBalance withdrawalAmount : ℚ) (choice : Char) : Run :=
  -- lines 16-19
  if accountBalance ≤ 0 then
    { outcome := .RejectedNoBalance, accountBalance := accountBalance,
      serviceCharge := none, totalDeduction := none, fallbackDeduction := none,
      choiceRead := false, debits := 0 }
  -- lines 26-29
  else if withdrawalAmount ≤ 0 then
    { outcome := .RejectedInvalidAmount, accountBalance := accountBalance,
      serviceCharge := none, totalDeduction := none, fallbackDeduction := none,
      choiceRead := false, debits := 0 }
  -- lines 32-35
  else if withdrawalAmount > MAX_WITHDRAWAL then
    { outcome := .RejectedExceedsDailyLimit, accountBalance := accountBalance,
      serviceCharge := none, totalDeduction := none, fallbackDeduction := none,
      choiceRead := false, debits := 0 }
  else
    -- line 37
    let totalDeduction : ℚ := withdrawalAmount
    -- lines 40-46: the updated `totalDeduction` and the charge announced on line 45
    let charged : ℚ × Option ℚ :=
      if withdrawalAmount > 300 then
        let extra := fl (withdrawalAmount - 300)
        let serviceCharge := fl (extra * SERVICE_CHARGE_RATE_64)
        (fl (totalDeduction + serviceCharge), some serviceCharge)
      else (totalDeduction, none)
    let totalDeduction : ℚ := charged.1
    let serviceCharge : Option ℚ := charged.2
    -- line 49
    if totalDeduction > accountBalance then
      -- line 55
      if choice = 'Y' ∨ choice = 'y' then
        -- line 56
        let fallback := fl (withdrawalAmount + LOW_FUNDS_CHARGE)
        -- line 57
        if fallback > accountBalance then
          { outcome := .RejectedStillInsufficient, accountBalance := accountBalance,
            serviceCharge := serviceCharge, totalDeduction := some totalDeduction,
            fallbackDeduction := some fallback, choiceRead := true, debits := 0 }
        else
          -- lines 60-62
          { outcome := .CompletedWithLowFundsCharge,
            accountBalance := fl (accountBalance - fallback),
            serviceCharge := serviceCharge, totalDeduction := some totalDeduction,
            fallbackDeduction := some fallback, choiceRead := true, debits := 1 }
      else
        -- line 65
        { outcome := .CancelledByUser, accountBalance := accountBalance,
          serviceCharge := serviceCharge, totalDeduction := some totalDeduction,
          fallbackDeduction := none, choiceRead := true, debits := 0 }
    else
      -- lines 68-70
      { outcome := if serviceCharge.isSome then .CompletedWithServiceCharge
                   else .CompletedStandard,
        accountBalance := fl (accountBalance - totalDeduction),
        serviceCharge := serviceCharge, totalDeduction := some totalDeduction,
        fallbackDeduction := none, choiceRead := false, debits := 1 }

/-- Lines 41-42 of `main64`: the value of `serviceCharge` for a request above `300`. -/
def serviceCharge64 (withdrawalAmount : ℚ) : ℚ :=
  fl (fl (withdrawalAmount - 300) * SERVICE_CHARGE_RATE_64)

/-- Lines 37-46 of `main64`: the value of `totalDeduction` that line 49 compares with the
balance. -/
def totalDeduction64 (withdrawalAmount : ℚ) : ℚ :=
  if withdrawalAmount > 300 then fl (withdrawalAmount + serviceCharge64 withdrawalAmount)
  else withdrawalAmount

/-! ## Guard chain (lines 16-35) -/

/-- C1: for every balance `≤ 0`, whatever the requested amount and the confirmation
character, the run ends in Rejected-NoBalance with the balance unchanged, and the whole
result is independent of the requested amount and of the confirmation. -/
theorem no_balance_rejected (balance requested : ℚ) (choice : Char) (hb : balance ≤ 0) :
    (main balance requested choice).outcome = Outcome.RejectedNoBalance ∧
    (main balance requested choice).accountBalance = balance ∧
    ∀ (requested2 : ℚ) (choice2 : Char),
      main balance requested2 choice2 = main balance requested choice := by
  simp [main, hb]

/-- Witness of C1 at balance `-5`, requested `600` (also above the daily limit). -/
theorem no_balance_rejected_witness :
    (-5 : ℚ) ≤ 0 ∧
    (main (-5) 600 'Y').outcome = Outcome.RejectedNoBalance ∧
    (main (-5) 600 'Y').accountBalance = -5 ∧
    ∀ (requested2 : ℚ) (choice2 : Char), main (-5) requested2 choice2 = main (-5) 600 'Y' :=
  ⟨by norm_num, no_balance_rejected (-5) 600 'Y' (by norm_num)⟩

/-- C2: for every balance `> 0` and every requested amount `≤ 0`, for any confirmation
character, the run ends in Rejected-InvalidAmount. -/
theorem invalid_amount_rejected (balance requested : ℚ) (choice : Char)
    (hb : 0 < balance) (hr : requested ≤ 0) :
    (main balance requested choice).outcome = Outcome.RejectedInvalidAmount := by
  simp [main, not_le.mpr hb, hr]

/-- Witness of C2 at balance `100`, requested `0`. -/
theorem invalid_amount_rejected_witness :
    (0 : ℚ) < 100 ∧ (0 : ℚ) ≤ 0 ∧
    (main 100 0 'n').outcome = Outcome.RejectedInvalidAmount :=
  ⟨by norm_num, le_refl 0, invalid_amount_rejected 100 0 'n' (by norm_num) (le_refl 0)⟩

/-- C3: for every balance `> 0` and every requested amount `> 500.00`, for any
confirmation character, the run ends in Rejected-ExceedsDailyLimit, whether or not the
balance would cover the withdrawal. -/
theorem over_limit_rejected (balance requested : ℚ) (choice : Char)
    (hb : 0 < balance) (hr : 500 < requested) :
    (main balance requested choice).outcome = Outcome.RejectedExceedsDailyLimit := by
  have hpos : ¬ requested ≤ 0 := not_le.mpr (lt_trans (by norm_num) hr)
  simp [main, MAX_WITHDRAWAL, not_le.mpr hb, hpos, hr]

/-- Witness of C3 at balance `100`, requested `600`. -/
theorem over_limit_rejected_witness :
    (0 : ℚ) < 100 ∧ (500 : ℚ) < 600 ∧
    (main 100 600 'Y').outcome = Outcome.RejectedExceedsDailyLimit :=
  ⟨by norm_num, by norm_num, over_limit_rejected 100 600 'Y' (by norm_num) (by norm_num)⟩

/-! ## Charge step (lines 37-46) -/

/-- C4: for every balance `> 0` and every requested amount with
`300.00 < requested ≤ 500.00`, the service charge computed is `(requested - 300.00) * 0.04`
(levied on the portion above 300.00 only) and the total deduction tested by the funds
check is `requested + serviceCharge`. -/
theorem service_charge_above_300 (balance requested : ℚ) (choice : Char)
    (hb : 0 < balance) (hlo : 300 < requested) (hhi : requested ≤ 500) :
    (main balance requested choice).serviceCharge = some ((requested - 300) * (4 / 100)) ∧
    (main balance requested choice).totalDeduction
      = some (requested + (requested - 300) * (4 / 100)) := by
  have hpos : ¬ requested ≤ 0 := not_le.mpr (lt_trans (by norm_num) hlo)
  have hmax : ¬ requested > MAX_WITHDRAWAL := by simpa [MAX_WITHDRAWAL] using hhi
  simp only [main, if_neg (not_le.mpr hb), if_neg hpos, if_neg hmax, if_pos hlo,
    SERVICE_CHARGE_RATE]
  constructor <;> split_ifs <;> rfl

/-- Witness of C4 at balance `1000`, requested `400`: charge `4.00`, deduction `404.00`. -/
theorem service_charge_above_300_witness :
    (main 1000 400 'N').serviceCharge = some 4 ∧
    (main 1000 400 'N').totalDeduction = some 404 := by
  have h := service_charge_above_300 1000 400 'N' (by norm_num) (by norm_num) (by norm_num)
  norm_num at h
  exact h

/-- C5: for every balance `> 0` and every requested amount with `0 < requested ≤ 300.00`,
no service charge is computed or announced, and the total deduction tested by the funds
check is the requested amount itself. -/
theorem no_service_charge_up_to_300 (balance requested : ℚ) (choice : Char)
    (hb : 0 < balance) (hlo : 0 < requested) (hhi : requested ≤ 300) :
    (main balance requested choice).serviceCharge = none ∧
    (main balance requested choice).totalDeduction = some requested := by
  have hmax : ¬ requested > MAX_WITHDRAWAL := by
    simp only [MAX_WITHDRAWAL, gt_iff_lt, not_lt]; linarith
  simp only [main, if_neg (not_le.mpr hb), if_neg (not_le.mpr hlo), if_neg hmax,
    if_neg (not_lt.mpr hhi)]
  constructor <;> split_ifs <;> rfl

/-- Witness of C5 at balance `1000`, requested `300` (the threshold itself). -/
theorem no_service_charge_up_to_300_witness :
    (0 : ℚ) < 1000 ∧ (0 : ℚ) < 300 ∧ (300 : ℚ) ≤ 300 ∧
    (main 1000 300 'Y').serviceCharge = none ∧
    (main 1000 300 'Y').totalDeduction = some 300 :=
  ⟨by norm_num, by norm_num, le_refl 300,
    no_service_charge_up_to_300 1000 300 'Y' (by norm_num) (by norm_num) (le_refl 300)⟩

/-! ## Scenario balance 430, requested 400 -/

/-- C7 as stated fails: with balance `430`, requested `400` and confirmation `'Y'` the run
does not end in Completed-WithLowFundsCharge with balance `5.00`. -/
theorem scenario_430_400_not_low_funds :
    ¬ ((main 430 400 'Y').outcome = Outcome.CompletedWithLowFundsCharge ∧
       (main 430 400 'Y').accountBalance = 5) := by
  intro h
  have hout : (main 430 400 'Y').outcome = Outcome.CompletedWithServiceCharge := by
    simp [main, MAX_WITHDRAWAL, SERVICE_CHARGE_RATE]
    norm_num
  rw [hout] at h
  exact absurd h.1 (by decide)

/-- C7, amended: with balance `430` and requested `400` the percentage deduction
`400 + 4 = 404` is covered by the balance, so no confirmation is read; whatever the
confirmation character, the run ends in Completed-WithServiceCharge and the new balance
is `26.00`, that is `430 - (400 + 4)`. -/
theorem scenario_430_400_service_charge (choice : Char) :
    (main 430 400 choice).outcome = Outcome.CompletedWithServiceCharge ∧
    (main 430 400 choice).accountBalance = 26 ∧
    (main 430 400 choice).totalDeduction = some 404 ∧
    (main 430 400 choice).choiceRead = false := by
  simp [main, MAX_WITHDRAWAL, SERVICE_CHARGE_RATE]
  norm_num

/-! ## Funds check, insufficient branch (lines 49-66) -/

/-- On every request that passes the daily-limit guard, a balance that does not cover the
percentage-based deduction does not cover `requested + 25.00` either: the percentage
charge is at most `(500 - 300) * 0.04 = 8.00`. Hence line 57 always finds the recomputed
deduction above the balance and lines 60-62 are never executed. -/
theorem shortfall_persists_with_flat_fee (balance requested : ℚ)
    (hhi : requested ≤ 500)
    (hins : balance
      < requested + (if 300 < requested then (requested - 300) * (4 / 100) else 0)) :
    balance < requested + 25 := by
  by_cases h : 300 < requested
  · rw [if_pos h] at hins
    linarith
  · rw [if_neg h, add_zero] at hins
    linarith

/-! ## Deduction never below the request (lines 37, 43, 56) -/

/-- C11: for every input that passes the guards (balance `> 0`, `0 < requested ≤ 500.00`)
a total deduction is computed, and it is at least the requested amount at each point where
it is assigned: the value left by the percentage step (lines 37-43), tested on line 49,
and the value recomputed with the flat fee on line 56 whenever that line is reached. -/
theorem deduction_at_least_requested (balance requested : ℚ) (choice : Char)
    (hb : 0 < balance) (hlo : 0 < requested) (hhi : requested ≤ 500) :
    (∃ d, (main balance requested choice).totalDeduction = some d ∧ requested ≤ d) ∧
    (∀ f, (main balance requested choice).fallbackDeduction = some f → requested ≤ f) := by
  have hmax : ¬ requested > MAX_WITHDRAWAL := by simpa [MAX_WITHDRAWAL] using hhi
  simp only [main, if_neg (not_le.mpr hb), if_neg (not_le.mpr hlo), if_neg hmax,
    SERVICE_CHARGE_RATE, LOW_FUNDS_CHARGE]
  by_cases h : 300 < requested
  · have hd : requested ≤ requested + (requested - 300) * (4 / 100) := by linarith
    simp only [gt_iff_lt, if_pos h]
    constructor
    · split_ifs <;> exact ⟨_, rfl, hd⟩
    · intro f hf
      split_ifs at hf <;> simp at hf <;> linarith
  · simp only [gt_iff_lt, if_neg h]
    constructor
    · split_ifs <;> exact ⟨_, rfl, le_refl _⟩
    · intro f hf
      split_ifs at hf <;> simp at hf <;> linarith

/-- Witness of C11 at balance `50`, requested `400`, confirmation `'Y'`, where both the
percentage step and the flat-fee recomputation are executed. -/
theorem deduction_at_least_requested_witness :
    (main 50 400 'Y').totalDeduction = some 404 ∧
    (main 50 400 'Y').fallbackDeduction = some 425 ∧
    (∃ d, (main 50 400 'Y').totalDeduction = some d ∧ (400 : ℚ) ≤ d) ∧
    (∀ f, (main 50 400 'Y').fallbackDeduction = some f → (400 : ℚ) ≤ f) := by
  refine ⟨?_, ?_, deduction_at_least_requested 50 400 'Y' (by norm_num) (by norm_num)
    (by norm_num)⟩
  · simp [main, MAX_WITHDRAWAL, SERVICE_CHARGE_RATE, LOW_FUNDS_CHARGE]
    norm_num
  · simp [main, MAX_WITHDRAWAL, SERVICE_CHARGE_RATE, LOW_FUNDS_CHARGE]
    norm_num

/-! ## Rejections and cancellations leave the balance alone -/

/-- C12: for all inputs, if the run ends in none of the three completed outcomes
(Completed-Standard, Completed-WithServiceCharge, Completed-WithLowFundsCharge), the final
balance is the initial balance and no debit was executed. -/
theorem rejection_keeps_balance (balance requested : ℚ) (choice : Char)
    (hrej : (main balance requested choice).outcome ≠ Outcome.CompletedStandard ∧
      (main balance requested choice).outcome ≠ Outcome.CompletedWithServiceCharge ∧
      (main balance requested choice).outcome ≠ Outcome.CompletedWithLowFundsCharge) :
    (main balance requested choice).accountBalance = balance ∧
    (main balance requested choice).debits = 0 := by
  obtain ⟨h1, h2, h3⟩ := hrej
  by_cases hb : balance ≤ 0
  · simp [main, hb]
  by_cases hw : requested ≤ 0
  · simp [main, hb, hw]
  by_cases hm : requested > MAX_WITHDRAWAL
  · simp [main, hb, hw, hm]
  by_cases hc : choice = 'Y' ∨ choice = 'y'
  · by_cases hf : requested + LOW_FUNDS_CHARGE > balance
    · by_cases h : 300 < requested
      · by_cases hd : requested + (requested - 300) * SERVICE_CHARGE_RATE > balance
        · simp [main, hb, hw, hm, hc, hf, h, hd]
        · simp [main, hb, hw, hm, hc, hf, h, hd] at h2
      · by_cases hd : requested > balance
        · simp [main, hb, hw, hm, hc, hf, h, hd]
        · simp [main, hb, hw, hm, hc, hf, h, hd] at h1
    · by_cases h : 300 < requested
      · by_cases hd : requested + (requested - 300) * SERVICE_CHARGE_RATE > balance
        · simp [main, hb, hw, hm, hc, hf, h, hd] at h3
        · simp [main, hb, hw, hm, hc, hf, h, hd] at h2
      · by_cases hd : requested > balance
        · simp [main, hb, hw, hm, hc, hf, h, hd] at h3
        · simp [main, hb, hw, hm, hc, hf, h, hd] at h1
  · by_cases h : 300 < requested
    · by_cases hd : requested + (requested - 300) * SERVICE_CHARGE_RATE > balance
      · simp [main, hb, hw, hm, hc, h, hd]
      · simp [main, hb, hw, hm, hc, h, hd] at h2
    · by_cases hd : requested > balance
      · simp [main, hb, hw, hm, hc, h, hd]
      · simp [main, hb, hw, hm, hc, h, hd] at h1

/-- Witness of C12 at balance `50`, requested `400`, confirmation `'N'`
(Cancelled-ByUser). -/
theorem rejection_keeps_balance_witness :
    (main 50 400 'N').outcome = Outcome.CancelledByUser ∧
    (main 50 400 'N').accountBalance = 50 ∧
    (main 50 400 'N').debits = 0 := by
  have hout : (main 50 400 'N').outcome = Outcome.CancelledByUser := by
    simp [main, MAX_WITHDRAWAL, SERVICE_CHARGE_RATE]
    norm_num
  exact ⟨hout, rejection_keeps_balance 50 400 'N' (by rw [hout]; decide)⟩

/-! ## Confirmation character -/

/-- C14: the confirmation is case-insensitive: for every balance and requested amount the
runs with confirmation `'Y'` and with confirmation `'y'` coincide, in particular in
outcome and final balance. -/
theorem confirmation_case_insensitive (balance requested : ℚ) :
    main balance requested 'Y' = main balance requested 'y' ∧
    (main balance requested 'Y').outcome = (main balance requested 'y').outcome ∧
    (main balance requested 'Y').accountBalance
      = (main balance requested 'y').accountBalance := by
  have h : main balance requested 'Y' = main balance requested 'y' := by
    simp [main]
  exact ⟨h, by rw [h], by rw [h]⟩

/-! ## The run record on requests that pass the guards -/

/-- When the guards are passed and the percentage-based deduction is covered by the
balance, the run is the record built on lines 67-71. -/
theorem main_of_covered (balance requested : ℚ) (choice : Char)
    (hb : 0 < balance) (hlo : 0 < requested) (hhi : requested ≤ 500)
    (hcov : requested + (if 300 < requested then (requested - 300) * (4 / 100) else 0)
      ≤ balance) :
    main balance requested choice =
      { outcome := if 300 < requested then Outcome.CompletedWithServiceCharge
                   else Outcome.CompletedStandard,
        accountBalance := balance -
          (requested + (if 300 < requested then (requested - 300) * (4 / 100) else 0)),
        serviceCharge := if 300 < requested then some ((requested - 300) * (4 / 100))
                         else none,
        totalDeduction :=
          some (requested + (if 300 < requested then (requested - 300) * (4 / 100) else 0)),
        fallbackDeduction := none, choiceRead := false, debits := 1 } := by
  have hmax : ¬ requested > MAX_WITHDRAWAL := by simpa [MAX_WITHDRAWAL] using hhi
  by_cases h : 300 < requested
  · rw [if_pos h] at hcov
    have hno : ¬ requested + (requested - 300) * (4 / 100) > balance := not_lt.mpr hcov
    simp [main, not_le.mpr hb, not_le.mpr hlo, hmax, h, hno, SERVICE_CHARGE_RATE]
  · rw [if_neg h, add_zero] at hcov
    have hno : ¬ requested > balance := not_lt.mpr hcov
    simp [main, not_le.mpr hb, not_le.mpr hlo, hmax, h, hno]

/-- When the guards are passed and the percentage-based deduction exceeds the balance,
the confirmation is read and the balance is left alone: the run is the record built on
line 58 (confirmation `'Y'` or `'y'`) or on line 65 (any other character). -/
theorem main_of_shortfall (balance requested : ℚ) (choice : Char)
    (hb : 0 < balance) (hlo : 0 < requested) (hhi : requested ≤ 500)
    (hins : balance
      < requested + (if 300 < requested then (requested - 300) * (4 / 100) else 0)) :
    main balance requested choice =
      { outcome := if choice = 'Y' ∨ choice = 'y' then Outcome.RejectedStillInsufficient
                   else Outcome.CancelledByUser,
        accountBalance := balance,
        serviceCharge := if 300 < requested then some ((requested - 300) * (4 / 100))
                         else none,
        totalDeduction :=
          some (requested + (if 300 < requested then (requested - 300) * (4 / 100) else 0)),
        fallbackDeduction := if choice = 'Y' ∨ choice = 'y' then some (requested + 25)
                             else none,
        choiceRead := true, debits := 0 } := by
  have hmax : ¬ requested > MAX_WITHDRAWAL := by simpa [MAX_WITHDRAWAL] using hhi
  have hstill : balance < requested + 25 :=
    shortfall_persists_with_flat_fee balance requested hhi hins
  by_cases hc : choice = 'Y' ∨ choice = 'y'
  · by_cases h : 300 < requested
    · rw [if_pos h] at hins
      simp [main, not_le.mpr hb, not_le.mpr hlo, hmax, h, hins, hc, hstill,
        SERVICE_CHARGE_RATE, LOW_FUNDS_CHARGE]
    · rw [if_neg h, add_zero] at hins
      simp [main, not_le.mpr hb, not_le.mpr hlo, hmax, h, hins, hc, hstill,
        LOW_FUNDS_CHARGE]
  · have hc1 : choice ≠ 'Y' := fun e => hc (Or.inl e)
    have hc2 : choice ≠ 'y' := fun e => hc (Or.inr e)
    by_cases h : 300 < requested
    · rw [if_pos h] at hins
      simp [main, not_le.mpr hb, not_le.mpr hlo, hmax, h, hins, hc1, hc2,
        SERVICE_CHARGE_RATE]
    · rw [if_neg h, add_zero] at hins
      simp [main, not_le.mpr hb, not_le.mpr hlo, hmax, h, hins, hc1, hc2]

/-- When one of the three guards of lines 16-35 fires, nothing is computed, debited or
asked: the balance is left alone and the outcome is one of the three guard rejections. -/
theorem main_of_guard (balance requested : ℚ) (choice : Char)
    (hg : balance ≤ 0 ∨ requested ≤ 0 ∨ 500 < requested) :
    main balance requested choice =
      { outcome := if balance ≤ 0 then Outcome.RejectedNoBalance
                   else if requested ≤ 0 then Outcome.RejectedInvalidAmount
                   else Outcome.RejectedExceedsDailyLimit,
        accountBalance := balance,
        serviceCharge := none, totalDeduction := none, fallbackDeduction := none,
        choiceRead := false, debits := 0 } := by
  by_cases hb : balance ≤ 0
  · simp [main, hb]
  by_cases hw : requested ≤ 0
  · simp [main, hb, hw]
  have hm : 500 < requested := by
    rcases hg with h | h | h
    · exact absurd h hb
    · exact absurd h hw
    · exact h
  simp [main, hb, hw, hm, MAX_WITHDRAWAL]

/-! ## When the confirmation matters -/

/-- C15: the confirmation is consulted only when the percentage-based deduction exceeds
the balance: whenever `balance ≤ 0`, or `requested ≤ 0`, or `requested > 500.00`, or the
deduction is at most the balance, no confirmation is read and any two runs that differ
only in the confirmation character have the same outcome and the same final balance. -/
theorem confirmation_ignored_without_shortfall (balance requested : ℚ)
    (choice1 choice2 : Char)
    (h : balance ≤ 0 ∨ requested ≤ 0 ∨ 500 < requested ∨
      requested + (if 300 < requested then (requested - 300) * (4 / 100) else 0)
        ≤ balance) :
    (main balance requested choice1).choiceRead = false ∧
    (main balance requested choice1).outcome = (main balance requested choice2).outcome ∧
    (main balance requested choice1).accountBalance
      = (main balance requested choice2).accountBalance := by
  by_cases hg : balance ≤ 0 ∨ requested ≤ 0 ∨ 500 < requested
  · rw [main_of_guard balance requested choice1 hg,
      main_of_guard balance requested choice2 hg]
    exact ⟨rfl, rfl, rfl⟩
  · have hcov : requested + (if 300 < requested then (requested - 300) * (4 / 100) else 0)
        ≤ balance := by
      rcases h with h | h | h | h
      · exact absurd (Or.inl h) hg
      · exact absurd (Or.inr (Or.inl h)) hg
      · exact absurd (Or.inr (Or.inr h)) hg
      · exact h
    simp only [not_or, not_le, not_lt] at hg
    rw [main_of_covered balance requested choice1 hg.1 hg.2.1 hg.2.2 hcov,
      main_of_covered balance requested choice2 hg.1 hg.2.1 hg.2.2 hcov]
    exact ⟨rfl, rfl, rfl⟩

/-- Witness of C15, one input for each of the four alternatives, comparing the
confirmations `'Y'` and `'N'`. -/
theorem confirmation_ignored_without_shortfall_witness :
    ((main (-5) 100 'Y').choiceRead = false ∧
      (main (-5) 100 'Y').outcome = (main (-5) 100 'N').outcome ∧
      (main (-5) 100 'Y').accountBalance = (main (-5) 100 'N').accountBalance) ∧
    ((main 100 0 'Y').choiceRead = false ∧
      (main 100 0 'Y').outcome = (main 100 0 'N').outcome ∧
      (main 100 0 'Y').accountBalance = (main 100 0 'N').accountBalance) ∧
    ((main 100 600 'Y').choiceRead = false ∧
      (main 100 600 'Y').outcome = (main 100 600 'N').outcome ∧
      (main 100 600 'Y').accountBalance = (main 100 600 'N').accountBalance) ∧
    ((main 1000 400 'Y').choiceRead = false ∧
      (main 1000 400 'Y').outcome = (main 1000 400 'N').outcome ∧
      (main 1000 400 'Y').accountBalance = (main 1000 400 'N').accountBalance) :=
  ⟨confirmation_ignored_without_shortfall (-5) 100 'Y' 'N' (Or.inl (by norm_num)),
    confirmation_ignored_without_shortfall 100 0 'Y' 'N' (Or.inr (Or.inl (le_refl 0))),
    confirmation_ignored_without_shortfall 100 600 'Y' 'N'
      (Or.inr (Or.inr (Or.inl (by norm_num)))),
    confirmation_ignored_without_shortfall 1000 400 'Y' 'N'
      (Or.inr (Or.inr (Or.inr (by norm_num))))⟩

/-- C16: with amounts taken as exact decimals, no run ends in
Completed-WithLowFundsCharge. Whenever the fallback prompt is reached (balance `> 0`,
`0 < requested ≤ 500.00`, percentage-based deduction above the balance) the confirmation
is read, `requested + 25.00 > balance` holds, and a confirmation `'Y'` or `'y'` ends in
Rejected-StillInsufficient. The final balance is the same for every confirmation
character. -/
theorem low_funds_completion_unreachable (balance requested : ℚ) (choice : Char) :
    (main balance requested choice).outcome ≠ Outcome.CompletedWithLowFundsCharge ∧
    (0 < balance → 0 < requested → requested ≤ 500 →
      balance < requested + (if 300 < requested then (requested - 300) * (4 / 100) else 0) →
        (main balance requested choice).choiceRead = true ∧
        balance < requested + 25 ∧
        (choice = 'Y' ∨ choice = 'y' →
          (main balance requested choice).outcome = Outcome.RejectedStillInsufficient)) ∧
    (∀ choice2 : Char,
      (main balance requested choice2).accountBalance
        = (main balance requested choice).accountBalance) := by
  refine ⟨?_, ?_, ?_⟩
  · by_cases hg : balance ≤ 0 ∨ requested ≤ 0 ∨ 500 < requested
    · rw [main_of_guard balance requested choice hg]
      simp only
      split_ifs <;> decide
    · simp only [not_or, not_le, not_lt] at hg
      by_cases hins : balance
          < requested + (if 300 < requested then (requested - 300) * (4 / 100) else 0)
      · rw [main_of_shortfall balance requested choice hg.1 hg.2.1 hg.2.2 hins]
        simp only
        split_ifs <;> decide
      · rw [main_of_covered balance requested choice hg.1 hg.2.1 hg.2.2 (not_lt.mp hins)]
        simp only
        split_ifs <;> decide
  · intro hb hlo hhi hins
    rw [main_of_shortfall balance requested choice hb hlo hhi hins]
    refine ⟨rfl, shortfall_persists_with_flat_fee balance requested hhi hins, ?_⟩
    intro hc
    simp only [if_pos hc]
  · intro choice2
    by_cases hg : balance ≤ 0 ∨ requested ≤ 0 ∨ 500 < requested
    · rw [main_of_guard balance requested choice hg,
        main_of_guard balance requested choice2 hg]
    · simp only [not_or, not_le, not_lt] at hg
      by_cases hins : balance
          < requested + (if 300 < requested then (requested - 300) * (4 / 100) else 0)
      · rw [main_of_shortfall balance requested choice hg.1 hg.2.1 hg.2.2 hins,
          main_of_shortfall balance requested choice2 hg.1 hg.2.1 hg.2.2 hins]
      · rw [main_of_covered balance requested choice hg.1 hg.2.1 hg.2.2 (not_lt.mp hins),
          main_of_covered balance requested choice2 hg.1 hg.2.1 hg.2.2 (not_lt.mp hins)]

/-- Witness of C16 at balance `50`, requested `400`, confirmation `'Y'`: the prompt is
reached, `425 > 50`, and accepting ends in Rejected-StillInsufficient. -/
theorem low_funds_completion_unreachable_witness :
    (main 50 400 'Y').choiceRead = true ∧
    (50 : ℚ) < 400 + 25 ∧
    (main 50 400 'Y').outcome = Outcome.RejectedStillInsufficient := by
  have h := (low_funds_completion_unreachable 50 400 'Y').2.1 (by norm_num) (by norm_num)
    (by norm_num) (by norm_num)
  exact ⟨h.1, h.2.1, h.2.2 (Or.inl rfl)⟩

/-! ## Properties of binary64 rounding -/

theorem roundEven_intCast (n : ℤ) : roundEven (n : ℚ) = n := by
  simp [roundEven]

theorem floor_le_roundEven (q : ℚ) : ⌊q⌋ ≤ roundEven q := by
  unfold roundEven
  split_ifs <;> omega

theorem roundEven_le_floor_add_one (q : ℚ) : roundEven q ≤ ⌊q⌋ + 1 := by
  unfold roundEven
  split_ifs <;> omega

theorem roundEven_mono {p q : ℚ} (h : p ≤ q) : roundEven p ≤ roundEven q := by
  have hf : ⌊p⌋ ≤ ⌊q⌋ := Int.floor_mono h
  rcases lt_or_eq_of_le hf with hlt | heq
  · calc roundEven p ≤ ⌊p⌋ + 1 := roundEven_le_floor_add_one p
      _ ≤ ⌊q⌋ := hlt
      _ ≤ roundEven q := floor_le_roundEven q
  · have hr : p - ⌊p⌋ ≤ q - ⌊q⌋ := by rw [heq]; linarith
    unfold roundEven
    rw [heq] at hr ⊢
    split_ifs <;> first | omega | (exfalso; linarith)

theorem abs_roundEven_sub_le (q : ℚ) : |(roundEven q : ℚ) - q| ≤ 1 / 2 := by
  have h1 : (⌊q⌋ : ℚ) ≤ q := Int.floor_le q
  have h2 : q < ⌊q⌋ + 1 := Int.lt_floor_add_one q
  unfold roundEven
  rw [abs_le]
  split_ifs <;> push_cast <;> constructor <;> linarith

theorem roundEven_eq_of_abs_sub_lt {q : ℚ} {n : ℤ} (h : |q - n| < 1 / 2) :
    roundEven q = n := by
  have h1 := abs_roundEven_sub_le q
  rw [abs_le] at h1
  rw [abs_lt] at h
  have h3 : ((roundEven q - n : ℤ) : ℚ) < 1 := by push_cast; linarith
  have h4 : (-1 : ℚ) < ((roundEven q - n : ℤ) : ℚ) := by push_cast; linarith
  have h5 : roundEven q - n < 1 := by exact_mod_cast h3
  have h6 : -1 < roundEven q - n := by exact_mod_cast h4
  omega

theorem two_zpow_pos (k : ℤ) : (0 : ℚ) < 2 ^ k := zpow_pos (by norm_num) k

theorem fl_zero : fl 0 = 0 := by
  simp [fl, roundEven]

theorem int_log_two_eq {x : ℚ} {e : ℤ} (hx : 0 < x) (h1 : 2 ^ e ≤ x) (h2 : x < 2 ^ (e + 1)) :
    Int.log 2 x = e := by
  have a : Int.log 2 x < e + 1 :=
    (Int.lt_zpow_iff_log_lt (by norm_num) hx).1 (by exact_mod_cast h2)
  have b : e ≤ Int.log 2 x :=
    (Int.zpow_le_iff_le_log (by norm_num) hx).1 (by exact_mod_cast h1)
  omega

theorem two_zpow_log_le {x : ℚ} (hx : 0 < x) : (2 : ℚ) ^ Int.log 2 x ≤ x := by
  have h := Int.zpow_log_le_self (b := 2) (by norm_num) hx
  exact_mod_cast h

theorem lt_two_zpow_log_succ (x : ℚ) : x < (2 : ℚ) ^ (Int.log 2 x + 1) := by
  have h := Int.lt_zpow_succ_log_self (b := 2) (by norm_num) x
  exact_mod_cast h

theorem ulpExp_of_pos {x : ℚ} (hx : 0 < x) : ulpExp x = max (Int.log 2 x) (-1022) - 52 := by
  rw [ulpExp, abs_of_pos hx]

theorem ulpExp_eq {x : ℚ} {e : ℤ} (hx : 0 < x) (he : -1022 ≤ e) (h1 : 2 ^ e ≤ x)
    (h2 : x < 2 ^ (e + 1)) : ulpExp x = e - 52 := by
  rw [ulpExp_of_pos hx, int_log_two_eq hx h1 h2, max_eq_left he]

theorem ulpExp_le {x : ℚ} {e : ℤ} (hx : 0 < x) (he : -1022 ≤ e) (h2 : x < 2 ^ (e + 1)) :
    ulpExp x ≤ e - 52 := by
  have a : Int.log 2 x < e + 1 :=
    (Int.lt_zpow_iff_log_lt (by norm_num) hx).1 (by exact_mod_cast h2)
  rw [ulpExp_of_pos hx]
  have : max (Int.log 2 x) (-1022) ≤ e := max_le (by omega) he
  omega

theorem ulpExp_ge (x : ℚ) : -1074 ≤ ulpExp x := by
  have : (-1022 : ℤ) ≤ max (Int.log 2 |x|) (-1022) := le_max_right _ _
  unfold ulpExp
  omega

theorem ulpExp_mono {x y : ℚ} (hx : 0 < x) (h : x ≤ y) : ulpExp x ≤ ulpExp y := by
  rw [ulpExp_of_pos hx, ulpExp_of_pos (lt_of_lt_of_le hx h)]
  have := Int.log_mono_right (b := 2) hx h
  have := max_le_max this (le_refl (-1022 : ℤ))
  omega

/-- A positive value lies below the top of its own binade. -/
theorem lt_two_zpow_ulpExp {x : ℚ} (hx : 0 < x) : x < 2 ^ (ulpExp x + 53) := by
  have h := lt_two_zpow_log_succ x
  have hle : Int.log 2 x + 1 ≤ ulpExp x + 53 := by
    rw [ulpExp_of_pos hx]
    have : Int.log 2 x ≤ max (Int.log 2 x) (-1022) := le_max_left _ _
    omega
  exact lt_of_lt_of_le h (zpow_le_zpow_right₀ (by norm_num) hle)

theorem fl_eq_of_near {x : ℚ} {e n : ℤ} (hx : 0 < x) (he : -1022 ≤ e) (h1 : 2 ^ e ≤ x)
    (h2 : x < 2 ^ (e + 1)) (hn : |x / 2 ^ (e - 52) - n| < 1 / 2) :
    fl x = n * 2 ^ (e - 52) := by
  rw [fl, ulpExp_eq hx he h1 h2, roundEven_eq_of_abs_sub_lt hn]

theorem fl_nonneg {x : ℚ} (hx : 0 ≤ x) : 0 ≤ fl x := by
  have hq : (0 : ℚ) ≤ x / 2 ^ ulpExp x := div_nonneg hx (le_of_lt (two_zpow_pos _))
  have h0 : roundEven ((0 : ℤ) : ℚ) ≤ roundEven (x / 2 ^ ulpExp x) :=
    roundEven_mono (by simpa using hq)
  rw [roundEven_intCast] at h0
  have : (0 : ℚ) ≤ (roundEven (x / 2 ^ ulpExp x) : ℚ) := by exact_mod_cast h0
  exact mul_nonneg this (le_of_lt (two_zpow_pos _))

/-- Values `k * 2 ^ j` with a 53-bit `k` and `j` not below the least exponent are
representable. -/
theorem fl_int_mul_two_zpow (k j : ℤ) (hk0 : 0 ≤ k) (hk : k < 2 ^ 53) (hj : -1074 ≤ j) :
    fl (k * 2 ^ j) = k * 2 ^ j := by
  rcases eq_or_lt_of_le hk0 with h0 | hpos
  · rw [← h0]; simp [fl_zero]
  have hkq : (0 : ℚ) < k := by exact_mod_cast hpos
  have hx : (0 : ℚ) < k * 2 ^ j := mul_pos hkq (two_zpow_pos j)
  have hlt : (k : ℚ) * 2 ^ j < 2 ^ (j + 52 + 1) := by
    have hk' : (k : ℚ) < 2 ^ (53 : ℤ) := by
      rw [show (2 : ℚ) ^ (53 : ℤ) = (2 : ℚ) ^ (53 : ℕ) from by norm_num]
      exact_mod_cast hk
    have e : (2 : ℚ) ^ (j + 52 + 1) = 2 ^ (53 : ℤ) * 2 ^ j := by
      rw [← zpow_add₀ (by norm_num : (2 : ℚ) ≠ 0)]; congr 1; ring
    rw [e]
    exact mul_lt_mul_of_pos_right hk' (two_zpow_pos j)
  have hu : ulpExp (k * 2 ^ j) ≤ j := by
    have := ulpExp_le hx (by omega : (-1022 : ℤ) ≤ j + 52) hlt
    omega
  obtain ⟨u, hu_eq⟩ : ∃ u, ulpExp (k * 2 ^ j) = u := ⟨_, rfl⟩
  rw [hu_eq] at hu
  obtain ⟨d, hd⟩ := Int.eq_ofNat_of_zero_le (sub_nonneg.mpr hu)
  have hj' : j = u + d := by omega
  have e : (2 : ℚ) ^ j = 2 ^ u * 2 ^ d := by
    rw [hj', zpow_add₀ (by norm_num : (2 : ℚ) ≠ 0), zpow_natCast]
  have hupos := two_zpow_pos u
  have hq : (k : ℚ) * 2 ^ j / 2 ^ u = ((k * 2 ^ d : ℤ) : ℚ) := by
    push_cast
    rw [e]
    field_simp
    ring
  rw [fl, hu_eq, hq, roundEven_intCast]
  push_cast
  rw [e]; ring

theorem fl_eq_mul (x : ℚ) : fl x = (roundEven (x / 2 ^ ulpExp x) : ℚ) * 2 ^ ulpExp x := rfl

theorem two_zpow_add (a b : ℤ) : (2 : ℚ) ^ (a + b) = 2 ^ a * 2 ^ b :=
  zpow_add₀ (by norm_num) a b

theorem two_zpow_mono {a b : ℤ} (h : a ≤ b) : (2 : ℚ) ^ a ≤ 2 ^ b :=
  zpow_le_zpow_right₀ (by norm_num) h

theorem two_zpow_53 : (2 : ℚ) ^ (53 : ℤ) = ((2 ^ 53 : ℤ) : ℚ) := by norm_num

theorem two_zpow_52 : (2 : ℚ) ^ (52 : ℤ) = ((2 ^ 52 : ℤ) : ℚ) := by norm_num

/-- Rounding never leaves the binade upwards: `fl x ≤ 2 ^ (ulpExp x + 53)`. -/
theorem fl_le_binade_top {x : ℚ} (hx : 0 < x) : fl x ≤ 2 ^ (ulpExp x + 53) := by
  have hu := two_zpow_pos (ulpExp x)
  have h1 : x / 2 ^ ulpExp x ≤ ((2 ^ 53 : ℤ) : ℚ) := by
    rw [div_le_iff₀ hu, ← two_zpow_53, ← two_zpow_add, add_comm]
    exact le_of_lt (lt_two_zpow_ulpExp hx)
  have h2 := roundEven_mono h1
  rw [roundEven_intCast] at h2
  have h3 : (roundEven (x / 2 ^ ulpExp x) : ℚ) ≤ ((2 ^ 53 : ℤ) : ℚ) := by exact_mod_cast h2
  rw [fl_eq_mul, add_comm, two_zpow_add, two_zpow_53]
  exact mul_le_mul_of_nonneg_right h3 (le_of_lt hu)

/-- Rounding never leaves a normal binade downwards. -/
theorem binade_bottom_le_fl {y : ℚ} (hy : 0 < y) (hn : -1074 < ulpExp y) :
    2 ^ (ulpExp y + 52) ≤ fl y := by
  have hu := two_zpow_pos (ulpExp y)
  have hlog : ulpExp y + 52 = Int.log 2 y := by
    have h := ulpExp_of_pos hy
    rcases le_total (Int.log 2 y) (-1022) with hc | hc
    · rw [max_eq_right hc] at h; omega
    · rw [max_eq_left hc] at h; omega
  have hle : (2 : ℚ) ^ (ulpExp y + 52) ≤ y := by
    rw [hlog]; exact two_zpow_log_le hy
  have h1 : ((2 ^ 52 : ℤ) : ℚ) ≤ y / 2 ^ ulpExp y := by
    rw [le_div_iff₀ hu, ← two_zpow_52, ← two_zpow_add, add_comm]
    exact hle
  have h2 := roundEven_mono h1
  rw [roundEven_intCast] at h2
  have h3 : ((2 ^ 52 : ℤ) : ℚ) ≤ (roundEven (y / 2 ^ ulpExp y) : ℚ) := by exact_mod_cast h2
  rw [fl_eq_mul, add_comm, two_zpow_add, two_zpow_52]
  exact mul_le_mul_of_nonneg_right h3 (le_of_lt hu)

/-- Binary64 rounding is monotone on non-negative values. -/
theorem fl_mono {x y : ℚ} (hx : 0 ≤ x) (h : x ≤ y) : fl x ≤ fl y := by
  rcases eq_or_lt_of_le hx with h0 | hpos
  · rw [← h0, fl_zero]; exact fl_nonneg (le_trans hx h)
  have hy : 0 < y := lt_of_lt_of_le hpos h
  rcases eq_or_lt_of_le (ulpExp_mono hpos h) with he | hlt
  · rw [fl_eq_mul, fl_eq_mul, ← he]
    have hu := two_zpow_pos (ulpExp x)
    have h1 : x / 2 ^ ulpExp x ≤ y / 2 ^ ulpExp x := div_le_div_of_nonneg_right h (le_of_lt hu)
    have h2 : (roundEven (x / 2 ^ ulpExp x) : ℚ) ≤ (roundEven (y / 2 ^ ulpExp x) : ℚ) := by
      exact_mod_cast roundEven_mono h1
    exact mul_le_mul_of_nonneg_right h2 (le_of_lt hu)
  · have hx' := ulpExp_ge x
    calc fl x ≤ 2 ^ (ulpExp x + 53) := fl_le_binade_top hpos
      _ ≤ 2 ^ (ulpExp y + 52) := two_zpow_mono (by omega)
      _ ≤ fl y := binade_bottom_le_fl hy (by omega)

/-- A representable positive value is an integer below `2 ^ 53` times its unit in the
last place. -/
theorem exists_mantissa {b : ℚ} (hb : fl b = b) (hb0 : 0 < b) :
    ∃ m : ℤ, b = m * 2 ^ ulpExp b ∧ 0 < m ∧ m < 2 ^ 53 := by
  have hu := two_zpow_pos (ulpExp b)
  refine ⟨roundEven (b / 2 ^ ulpExp b), ?_, ?_, ?_⟩
  · conv_lhs => rw [← hb, fl_eq_mul]
  · have h : (0 : ℚ) < (roundEven (b / 2 ^ ulpExp b) : ℚ) * 2 ^ ulpExp b := by
      rw [← fl_eq_mul, hb]; exact hb0
    have h2 : (0 : ℚ) < (roundEven (b / 2 ^ ulpExp b) : ℚ) := by
      by_contra hneg
      have := mul_nonpos_of_nonpos_of_nonneg (not_lt.mp hneg) (le_of_lt hu)
      linarith
    exact_mod_cast h2
  · have h : (roundEven (b / 2 ^ ulpExp b) : ℚ) * 2 ^ ulpExp b < 2 ^ (53 : ℤ) * 2 ^ ulpExp b := by
      rw [← fl_eq_mul, hb, ← two_zpow_add, add_comm]
      exact lt_two_zpow_ulpExp hb0
    have h2 : (roundEven (b / 2 ^ ulpExp b) : ℚ) < ((2 ^ 53 : ℤ) : ℚ) := by
      rw [← two_zpow_53]
      exact lt_of_mul_lt_mul_right h (le_of_lt hu)
    exact_mod_cast h2

/-- A value less than half a unit in the last place above a representable `b` does not
round above `b`. -/
theorem fl_le_of_lt_add_half_ulp {b x : ℚ} (hb : fl b = b) (hb0 : 0 < b) (hx0 : 0 ≤ x)
    (h : x < b + 2 ^ (ulpExp b - 1)) : fl x ≤ b := by
  rcases le_or_lt x b with hle | hgt
  · calc fl x ≤ fl b := fl_mono hx0 hle
      _ = b := hb
  obtain ⟨m, hm, _, hm53⟩ := exists_mantissa hb hb0
  obtain ⟨u, hu_eq⟩ : ∃ u, ulpExp b = u := ⟨_, rfl⟩
  rw [hu_eq] at hm h
  have hu := two_zpow_pos u
  have hx : 0 < x := lt_trans hb0 hgt
  have hhalf : (2 : ℚ) ^ (u - 1) = 2 ^ u / 2 := by
    rw [zpow_sub₀ (by norm_num : (2 : ℚ) ≠ 0)]; norm_num
  have htop : b + 2 ^ u ≤ 2 ^ (u + 52 + 1) := by
    have h1 : m + 1 ≤ 2 ^ 53 := by omega
    have h2 : ((m + 1 : ℤ) : ℚ) ≤ ((2 ^ 53 : ℤ) : ℚ) := by exact_mod_cast h1
    have e : (2 : ℚ) ^ (u + 52 + 1) = ((2 ^ 53 : ℤ) : ℚ) * 2 ^ u := by
      rw [← two_zpow_53, ← two_zpow_add]; congr 1; ring
    rw [e, hm]
    calc (m : ℚ) * 2 ^ u + 2 ^ u = ((m + 1 : ℤ) : ℚ) * 2 ^ u := by push_cast; ring
      _ ≤ ((2 ^ 53 : ℤ) : ℚ) * 2 ^ u := mul_le_mul_of_nonneg_right h2 (le_of_lt hu)
  have hxu : ulpExp x = u := by
    have h1 : ulpExp x ≤ u + 52 - 52 :=
      ulpExp_le hx (by have := ulpExp_ge b; omega) (by rw [hhalf] at h; linarith)
    have h2 : ulpExp b ≤ ulpExp x := ulpExp_mono hb0 (le_of_lt hgt)
    omega
  have hn : |x / 2 ^ u - m| < 1 / 2 := by
    have e : x / 2 ^ u - m = (x - b) / 2 ^ u := by rw [hm]; field_simp; ring
    rw [e, abs_lt]
    constructor
    · have : 0 < (x - b) / 2 ^ u := div_pos (by linarith) hu
      linarith
    · rw [div_lt_iff₀ hu]
      rw [hhalf] at h
      linarith
  rw [fl_eq_mul, hxu, roundEven_eq_of_abs_sub_lt hn, ← hm]

/-- Rounding adds at most half a unit in the last place. -/
theorem fl_le_add_half_ulp {x : ℚ} {e : ℤ} (hx : 0 < x) (he : -1022 ≤ e)
    (h2 : x < 2 ^ (e + 1)) : fl x ≤ x + 2 ^ (e - 53) := by
  obtain ⟨u, hu_eq⟩ : ∃ u, ulpExp x = u := ⟨_, rfl⟩
  have hle : u ≤ e - 52 := by rw [← hu_eq]; exact ulpExp_le hx he h2
  have hu := two_zpow_pos u
  have h1 := abs_roundEven_sub_le (x / 2 ^ u)
  rw [abs_le] at h1
  have h3 : (roundEven (x / 2 ^ u) : ℚ) * 2 ^ u ≤ x + 2 ^ u / 2 := by
    have : (roundEven (x / 2 ^ u) : ℚ) ≤ x / 2 ^ u + 1 / 2 := by linarith
    calc (roundEven (x / 2 ^ u) : ℚ) * 2 ^ u ≤ (x / 2 ^ u + 1 / 2) * 2 ^ u :=
          mul_le_mul_of_nonneg_right this (le_of_lt hu)
      _ = x + 2 ^ u / 2 := by field_simp; ring
  have h4 : (2 : ℚ) ^ u / 2 ≤ 2 ^ (e - 53) := by
    have : (2 : ℚ) ^ u / 2 = 2 ^ (u - 1) := by
      rw [zpow_sub₀ (by norm_num : (2 : ℚ) ≠ 0)]; norm_num
    rw [this]
    exact two_zpow_mono (by omega)
  rw [fl_eq_mul, hu_eq]
  linarith

/-! ## Rounding at the values used below -/

theorem rate64_eq : SERVICE_CHARGE_RATE_64 = 5764607523034235 / 2 ^ 57 := by
  unfold SERVICE_CHARGE_RATE_64
  rw [fl_eq_of_near (e := -5) (n := 5764607523034235) (by norm_num) (by norm_num)
    (by norm_num) (by norm_num) (by norm_num [abs_lt])]
  norm_num

theorem fl_intCast (k : ℤ) (hk0 : 0 ≤ k) (hk : k < 2 ^ 53) : fl (k : ℚ) = k := by
  have h := fl_int_mul_two_zpow k 0 hk0 hk (by norm_num)
  simpa using h

theorem fl_200 : fl 200 = 200 := by
  have h := fl_intCast 200 (by norm_num) (by norm_num)
  exact_mod_cast h

theorem fl_1e17 : fl (10 ^ 17) = 10 ^ 17 := by
  have h := fl_int_mul_two_zpow (5 ^ 17) 17 (by norm_num) (by norm_num) (by norm_num)
  have e : ((5 ^ 17 : ℤ) : ℚ) * 2 ^ (17 : ℤ) = 10 ^ 17 := by norm_num
  rw [e] at h
  exact h

theorem fl_200_rate : fl (200 * SERVICE_CHARGE_RATE_64) = 8 := by
  rw [rate64_eq, fl_eq_of_near (e := 3) (n := 2 ^ 52) (by norm_num) (by norm_num)
    (by norm_num) (by norm_num) (by norm_num [abs_lt])]
  norm_num

theorem fl_1e17_sub_1 : fl (10 ^ 17 - 1) = 10 ^ 17 := by
  rw [fl_eq_of_near (e := 56) (n := 6250000000000000) (by norm_num) (by norm_num)
    (by norm_num) (by norm_num) (by norm_num [abs_lt])]
  norm_num

theorem fl_1e17_sub_508 : fl (10 ^ 17 - 508) = 10 ^ 17 - 512 := by
  rw [fl_eq_of_near (e := 56) (n := 6250000000000000 - 32) (by norm_num) (by norm_num)
    (by norm_num) (by norm_num) (by norm_num [abs_lt])]
  norm_num

theorem fl_508 : fl 508 = 508 := by
  have h := fl_intCast 508 (by norm_num) (by norm_num)
  exact_mod_cast h

theorem rate64_pos : 0 < SERVICE_CHARGE_RATE_64 := by
  rw [rate64_eq]; norm_num

/-! ## The computed charge and deduction -/

theorem serviceCharge64_nonneg {w : ℚ} (hlo : 300 ≤ w) : 0 ≤ serviceCharge64 w :=
  fl_nonneg (mul_nonneg (fl_nonneg (by linarith)) (le_of_lt rate64_pos))

/-- The computed charge on a request up to the daily limit is at most `8.00`. -/
theorem serviceCharge64_le {w : ℚ} (hlo : 300 ≤ w) (hhi : w ≤ 500) :
    serviceCharge64 w ≤ 8 := by
  have h1 : fl (w - 300) ≤ 200 := by
    calc fl (w - 300) ≤ fl 200 := fl_mono (by linarith) (by linarith)
      _ = 200 := fl_200
  have h2 : fl (w - 300) * SERVICE_CHARGE_RATE_64 ≤ 200 * SERVICE_CHARGE_RATE_64 :=
    mul_le_mul_of_nonneg_right h1 (le_of_lt rate64_pos)
  calc serviceCharge64 w ≤ fl (200 * SERVICE_CHARGE_RATE_64) :=
        fl_mono (mul_nonneg (fl_nonneg (by linarith)) (le_of_lt rate64_pos)) h2
    _ = 8 := fl_200_rate

theorem totalDeduction64_nonneg {w : ℚ} (hlo : 0 < w) : 0 ≤ totalDeduction64 w := by
  unfold totalDeduction64
  split_ifs with h
  · exact fl_nonneg (add_nonneg (le_of_lt hlo) (serviceCharge64_nonneg (le_of_lt h)))
  · exact le_of_lt hlo

/-- The computed deduction on a request up to the daily limit is at most `508.00`. -/
theorem totalDeduction64_le_508 {w : ℚ} (hlo : 0 < w) (hhi : w ≤ 500) :
    totalDeduction64 w ≤ 508 := by
  unfold totalDeduction64
  split_ifs with h
  · have hc := serviceCharge64_le (le_of_lt h) hhi
    calc fl (w + serviceCharge64 w) ≤ fl 508 :=
          fl_mono (add_nonneg (le_of_lt hlo) (serviceCharge64_nonneg (le_of_lt h)))
            (by linarith)
      _ = 508 := fl_508
  · linarith

/-- The computed percentage-based deduction never exceeds the flat-fee deduction that
line 56 computes. -/
theorem totalDeduction64_le_flat {w : ℚ} (hw : fl w = w) (hlo : 0 < w) (hhi : w ≤ 500) :
    totalDeduction64 w ≤ fl (w + LOW_FUNDS_CHARGE) := by
  unfold totalDeduction64 LOW_FUNDS_CHARGE
  split_ifs with h
  · have hc := serviceCharge64_le (le_of_lt h) hhi
    exact fl_mono (add_nonneg (le_of_lt hlo) (serviceCharge64_nonneg (le_of_lt h)))
      (by linarith)
  · calc w = fl w := hw.symm
      _ ≤ fl (w + 25) := fl_mono (le_of_lt hlo) (by linarith)

/-! ## The run record of `main64` -/

/-- When the guards are passed and the computed deduction is covered by the balance,
`main64` ends on lines 67-71 with the rounded difference as new balance. -/
theorem main64_of_covered (balance requested : ℚ) (choice : Char)
    (hb : 0 < balance) (hlo : 0 < requested) (hhi : requested ≤ 500)
    (hcov : totalDeduction64 requested ≤ balance) :
    main64 balance requested choice =
      { outcome := if 300 < requested then Outcome.CompletedWithServiceCharge
                   else Outcome.CompletedStandard,
        accountBalance := fl (balance - totalDeduction64 requested),
        serviceCharge := if 300 < requested then some (serviceCharge64 requested)
                         else none,
        totalDeduction := some (totalDeduction64 requested),
        fallbackDeduction := none, choiceRead := false, debits := 1 } := by
  have hmax : ¬ requested > MAX_WITHDRAWAL := by simpa [MAX_WITHDRAWAL] using hhi
  by_cases h : 300 < requested
  · have hcov2 : ¬ fl (requested + fl (fl (requested - 300) * SERVICE_CHARGE_RATE_64))
        > balance := by
      simpa [totalDeduction64, serviceCharge64, h] using hcov
    simp only [main64, if_neg (not_le.mpr hb), if_neg (not_le.mpr hlo), if_neg hmax,
      gt_iff_lt, if_pos h, totalDeduction64, serviceCharge64]
    rw [if_neg hcov2]
    simp
  · have hcov2 : ¬ requested > balance := by
      simpa [totalDeduction64, h] using hcov
    simp only [main64, if_neg (not_le.mpr hb), if_neg (not_le.mpr hlo), if_neg hmax,
      gt_iff_lt, if_neg h, totalDeduction64]
    rw [if_neg hcov2]
    simp

/-- When the guards are passed and the computed deduction exceeds the balance, `main64`
reads the confirmation and leaves the balance alone: it ends on line 58 (confirmation
`'Y'` or `'y'`) or on line 65 (any other character). -/
theorem main64_of_shortfall (balance requested : ℚ) (choice : Char)
    (hw : fl requested = requested ∨ ¬ (choice = 'Y' ∨ choice = 'y'))
    (hb : 0 < balance) (hlo : 0 < requested) (hhi : requested ≤ 500)
    (hins : balance < totalDeduction64 requested) :
    main64 balance requested choice =
      { outcome := if choice = 'Y' ∨ choice = 'y' then Outcome.RejectedStillInsufficient
                   else Outcome.CancelledByUser,
        accountBalance := balance,
        serviceCharge := if 300 < requested then some (serviceCharge64 requested)
                         else none,
        totalDeduction := some (totalDeduction64 requested),
        fallbackDeduction :=
          if choice = 'Y' ∨ choice = 'y' then some (fl (requested + LOW_FUNDS_CHARGE))
          else none,
        choiceRead := true, debits := 0 } := by
  have hmax : ¬ requested > MAX_WITHDRAWAL := by simpa [MAX_WITHDRAWAL] using hhi
  by_cases hc : choice = 'Y' ∨ choice = 'y'
  · have hwd : fl requested = requested := by
      rcases hw with h | h
      · exact h
      · exact absurd hc h
    have hflat : fl (requested + LOW_FUNDS_CHARGE) > balance :=
      lt_of_lt_of_le hins (totalDeduction64_le_flat hwd hlo hhi)
    by_cases h : 300 < requested
    · have hins2 : fl (requested + fl (fl (requested - 300) * SERVICE_CHARGE_RATE_64))
          > balance := by
        simpa [totalDeduction64, serviceCharge64, h] using hins
      simp only [main64, if_neg (not_le.mpr hb), if_neg (not_le.mpr hlo), if_neg hmax,
        gt_iff_lt, if_pos h, totalDeduction64, serviceCharge64]
      rw [if_pos hins2, if_pos hc, if_pos hflat]
      simp [hc]
    · have hins2 : requested > balance := by
        simpa [totalDeduction64, h] using hins
      simp only [main64, if_neg (not_le.mpr hb), if_neg (not_le.mpr hlo), if_neg hmax,
        gt_iff_lt, if_neg h, totalDeduction64]
      rw [if_pos hins2, if_pos hc, if_pos hflat]
      simp [hc]
  · by_cases h : 300 < requested
    · have hins2 : fl (requested + fl (fl (requested - 300) * SERVICE_CHARGE_RATE_64))
          > balance := by
        simpa [totalDeduction64, serviceCharge64, h] using hins
      simp only [main64, if_neg (not_le.mpr hb), if_neg (not_le.mpr hlo), if_neg hmax,
        gt_iff_lt, if_pos h, totalDeduction64, serviceCharge64]
      rw [if_pos hins2, if_neg hc]
      simp [hc]
    · have hins2 : requested > balance := by
        simpa [totalDeduction64, h] using hins
      simp only [main64, if_neg (not_le.mpr hb), if_neg (not_le.mpr hlo), if_neg hmax,
        gt_iff_lt, if_neg h, totalDeduction64]
      rw [if_pos hins2, if_neg hc]
      simp [hc]

/-- Past the guards, the deduction recorded by `main64` is `totalDeduction64`. -/
theorem main64_totalDeduction (balance requested : ℚ) (choice : Char)
    (hw : fl requested = requested ∨ ¬ (choice = 'Y' ∨ choice = 'y'))
    (hb : 0 < balance) (hlo : 0 < requested) (hhi : requested ≤ 500) :
    (main64 balance requested choice).totalDeduction = some (totalDeduction64 requested) := by
  rcases le_or_lt (totalDeduction64 requested) balance with h | h
  · rw [main64_of_covered balance requested choice hb hlo hhi h]
  · rw [main64_of_shortfall balance requested choice hw hb hlo hhi h]

/-! ## Exact and computed deduction -/

theorem ulpExp_ge_of_256_le {b : ℚ} (h : 256 ≤ b) : -44 ≤ ulpExp b := by
  have h1 : ulpExp (256 : ℚ) = 8 - 52 :=
    ulpExp_eq (by norm_num) (by norm_num) (by norm_num) (by norm_num)
  have h2 := ulpExp_mono (by norm_num : (0 : ℚ) < 256) h
  omega

/-- The computed charge exceeds the exact charge `(requested - 300) * 0.04` by less than
`2 ^ (-48)`. -/
theorem serviceCharge64_le_exact_add {w : ℚ} (hlo : 300 < w) (hhi : w ≤ 500) :
    serviceCharge64 w ≤ (w - 300) * (4 / 100) + 1 / 2 ^ 49 := by
  have hx : 0 < w - 300 := by linarith
  have h1 : fl (w - 300) ≤ (w - 300) + 2 ^ ((7 : ℤ) - 53) :=
    fl_le_add_half_ulp hx (by norm_num) (by norm_num; linarith)
  have h1n : ((2 : ℚ) ^ ((7 : ℤ) - 53)) = 1 / 2 ^ 46 := by norm_num
  rw [h1n] at h1
  have h0 : 0 ≤ fl (w - 300) := fl_nonneg (le_of_lt hx)
  have hr : SERVICE_CHARGE_RATE_64 = 4 / 100 + 3 / (25 * 2 ^ 57) := by
    rw [rate64_eq]; norm_num
  have hp : fl (w - 300) * SERVICE_CHARGE_RATE_64
      ≤ (w - 300) * (4 / 100) + 1 / 2 ^ 50 := by
    have a : fl (w - 300) * SERVICE_CHARGE_RATE_64
        ≤ ((w - 300) + 1 / 2 ^ 46) * SERVICE_CHARGE_RATE_64 :=
      mul_le_mul_of_nonneg_right h1 (le_of_lt rate64_pos)
    have b : (w - 300) * (3 / (25 * 2 ^ 57)) ≤ 200 * (3 / (25 * 2 ^ 57)) :=
      mul_le_mul_of_nonneg_right (by linarith) (by norm_num)
    rw [hr] at a ⊢
    have c : ((w - 300) + 1 / 2 ^ 46) * ((4 : ℚ) / 100 + 3 / (25 * 2 ^ 57))
        = (w - 300) * (4 / 100) + (w - 300) * (3 / (25 * 2 ^ 57))
          + 1 / 2 ^ 46 * (4 / 100 + 3 / (25 * 2 ^ 57)) := by ring
    rw [c] at a
    have d : (200 : ℚ) * (3 / (25 * 2 ^ 57)) + 1 / 2 ^ 46 * (4 / 100 + 3 / (25 * 2 ^ 57))
        ≤ 1 / 2 ^ 50 := by norm_num
    linarith
  rcases eq_or_lt_of_le (mul_nonneg h0 (le_of_lt rate64_pos)) with hz | hpos
  · unfold serviceCharge64
    rw [← hz, fl_zero]
    have : (0 : ℚ) ≤ (w - 300) * (4 / 100) := by nlinarith
    have : (0 : ℚ) < 1 / 2 ^ 49 := by norm_num
    linarith
  · have hlt : fl (w - 300) * SERVICE_CHARGE_RATE_64 < 2 ^ ((3 : ℤ) + 1) := by
      have : (w - 300) * (4 / 100) ≤ 8 := by linarith
      have : (1 : ℚ) / 2 ^ 50 < 1 := by norm_num
      have : ((2 : ℚ) ^ ((3 : ℤ) + 1)) = 16 := by norm_num
      linarith
    have h2 := fl_le_add_half_ulp hpos (by norm_num) hlt
    have h2n : ((2 : ℚ) ^ ((3 : ℤ) - 53)) = 1 / 2 ^ 50 := by norm_num
    rw [h2n] at h2
    have e : (1 : ℚ) / 2 ^ 50 + 1 / 2 ^ 50 = 1 / 2 ^ 49 := by norm_num
    unfold serviceCharge64
    linarith

/-- A representable balance that covers the exact deduction
`requested + (requested - 300) * 0.04` also covers the deduction computed in binary64:
the excess of the computed sum is below half a unit in the last place of the balance. -/
theorem totalDeduction64_le_of_exact_le {b w : ℚ} (hbd : fl b = b) (hhi : w ≤ 500)
    (hex : w + (if 300 < w then (w - 300) * (4 / 100) else 0) ≤ b) :
    totalDeduction64 w ≤ b := by
  unfold totalDeduction64
  by_cases h : 300 < w
  · rw [if_pos h] at hex
    rw [if_pos h]
    have hc := serviceCharge64_le_exact_add h hhi
    have hc0 := serviceCharge64_nonneg (le_of_lt h)
    have hb256 : (256 : ℚ) ≤ b := by nlinarith
    have hu := ulpExp_ge_of_256_le hb256
    have hhalf : (2 : ℚ) ^ ((-44 : ℤ) - 1) ≤ 2 ^ (ulpExp b - 1) := two_zpow_mono (by omega)
    have hn : ((2 : ℚ) ^ ((-44 : ℤ) - 1)) = 1 / 2 ^ 45 := by norm_num
    rw [hn] at hhalf
    have hsmall : (1 : ℚ) / 2 ^ 49 < 1 / 2 ^ 45 := by norm_num
    exact fl_le_of_lt_add_half_ulp hbd (by linarith) (by linarith) (by linarith)
  · rw [if_neg h, add_zero] at hex
    rw [if_neg h]
    exact hex

/-! ## Rounding at the scenario values -/

theorem isDouble_intCast (k : ℤ) (hk0 : 0 ≤ k) (hk : k < 2 ^ 53) : IsDouble (k : ℚ) := by
  refine ⟨fl_intCast k hk0 hk, ?_⟩
  have h1 : (k : ℚ) < ((2 ^ 53 : ℤ) : ℚ) := by exact_mod_cast hk
  have h0 : (0 : ℚ) ≤ (k : ℚ) := by exact_mod_cast hk0
  rw [abs_of_nonneg h0]
  refine lt_trans h1 ?_
  norm_num

theorem isDouble_1e17 : IsDouble (10 ^ 17) := by
  refine ⟨fl_1e17, ?_⟩
  rw [abs_of_nonneg (by norm_num)]
  norm_num

theorem totalDeduction64_200 : totalDeduction64 200 = 200 := by
  norm_num [totalDeduction64]

theorem totalDeduction64_1 : totalDeduction64 1 = 1 := by
  norm_num [totalDeduction64]

theorem serviceCharge64_400 : serviceCharge64 400 = 4 := by
  have h100 : fl ((400 : ℚ) - 300) = 100 := by
    have h := fl_intCast 100 (by norm_num) (by norm_num)
    norm_num
    exact_mod_cast h
  unfold serviceCharge64
  rw [h100, rate64_eq, fl_eq_of_near (e := 2) (n := 2 ^ 52) (by norm_num) (by norm_num)
    (by norm_num) (by norm_num) (by norm_num [abs_lt])]
  norm_num

theorem totalDeduction64_400 : totalDeduction64 400 = 404 := by
  have h404 : fl ((400 : ℚ) + 4) = 404 := by
    have h := fl_intCast 404 (by norm_num) (by norm_num)
    norm_num
    exact_mod_cast h
  unfold totalDeduction64
  rw [if_pos (by norm_num), serviceCharge64_400, h404]

theorem serviceCharge64_500 : serviceCharge64 500 = 8 := by
  have h200 : fl ((500 : ℚ) - 300) = 200 := by
    norm_num
    exact fl_200
  unfold serviceCharge64
  rw [h200, fl_200_rate]

theorem totalDeduction64_500 : totalDeduction64 500 = 508 := by
  have h508 : fl ((500 : ℚ) + 8) = 508 := by
    norm_num
    exact fl_508
  unfold totalDeduction64
  rw [if_pos (by norm_num), serviceCharge64_500, h508]

/-! ## Funds check, sufficient branch (lines 48-49, 67-71) -/

/-- C6 as stated fails in `double` arithmetic: with balance `1e17` and requested `1` (both
doubles, deduction `1 ≤ balance`) the run completes, but line 68 leaves the balance at
`1e17`, not at `balance - deduction`. -/
theorem sufficient_funds_balance_not_exact :
    IsDouble (10 ^ 17) ∧ IsDouble 1 ∧
    (1 : ℚ) + (if (300 : ℚ) < 1 then ((1 : ℚ) - 300) * (4 / 100) else 0) ≤ 10 ^ 17 ∧
    (main64 (10 ^ 17) 1 'Y').outcome = Outcome.CompletedStandard ∧
    (main64 (10 ^ 17) 1 'Y').accountBalance = 10 ^ 17 ∧
    (main64 (10 ^ 17) 1 'Y').accountBalance
      ≠ 10 ^ 17 - (1 + (if (300 : ℚ) < 1 then ((1 : ℚ) - 300) * (4 / 100) else 0)) := by
  have h1 : IsDouble 1 := by
    have h := isDouble_intCast 1 (by norm_num) (by norm_num)
    exact_mod_cast h
  have hrun := main64_of_covered (10 ^ 17) 1 'Y' (by norm_num) (by norm_num) (by norm_num)
    (by rw [totalDeduction64_1]; norm_num)
  rw [totalDeduction64_1, fl_1e17_sub_1] at hrun
  rw [hrun]
  refine ⟨isDouble_1e17, h1, by norm_num, by norm_num, rfl, ?_⟩
  norm_num

/-- C6, amended: for every balance `> 0` (a double) and requested amount with
`0 < requested ≤ 500.00` whose deduction (requested, plus `(requested - 300.00) * 0.04`
when `requested > 300.00`; taken exactly or as computed in `double`) is at most the
balance, the run completes without reading a confirmation (and so is the same for every
confirmation character), debits the balance exactly once, and ends in Completed-Standard
when `requested ≤ 300.00` and in Completed-WithServiceCharge when `requested > 300.00`.
The new balance is the `double` difference of the balance and the computed deduction; it
lies between `0` and the balance and need not equal `balance - deduction`. -/
theorem sufficient_funds_completes64 (balance requested : ℚ) (choice : Char)
    (hbd : IsDouble balance)
    (hb : 0 < balance) (hlo : 0 < requested) (hhi : requested ≤ 500)
    (hfunds : requested + (if 300 < requested then (requested - 300) * (4 / 100) else 0)
        ≤ balance ∨
      totalDeduction64 requested ≤ balance) :
    (main64 balance requested choice).choiceRead = false ∧
    (∀ choice2 : Char, main64 balance requested choice2 = main64 balance requested choice) ∧
    (main64 balance requested choice).debits = 1 ∧
    (main64 balance requested choice).totalDeduction = some (totalDeduction64 requested) ∧
    (main64 balance requested choice).accountBalance
      = fl (balance - totalDeduction64 requested) ∧
    0 ≤ (main64 balance requested choice).accountBalance ∧
    (main64 balance requested choice).accountBalance ≤ balance ∧
    (requested ≤ 300 →
      (main64 balance requested choice).outcome = Outcome.CompletedStandard) ∧
    (300 < requested →
      (main64 balance requested choice).outcome = Outcome.CompletedWithServiceCharge) := by
  have hcov : totalDeduction64 requested ≤ balance := by
    rcases hfunds with h | h
    · exact totalDeduction64_le_of_exact_le hbd.1 hhi h
    · exact h
  have htd0 := totalDeduction64_nonneg hlo
  have hle : fl (balance - totalDeduction64 requested) ≤ balance := by
    calc fl (balance - totalDeduction64 requested) ≤ fl balance :=
          fl_mono (by linarith) (by linarith)
      _ = balance := hbd.1
  have hrun := fun c => main64_of_covered balance requested c hb hlo hhi hcov
  refine ⟨by rw [hrun], fun c2 => by rw [hrun, hrun], by rw [hrun], by rw [hrun],
    by rw [hrun], ?_, ?_, ?_, ?_⟩
  · rw [hrun]; exact fl_nonneg (by linarith)
  · rw [hrun]; exact hle
  · intro h; rw [hrun]; simp only [if_neg (not_lt.mpr h)]
  · intro h; rw [hrun]; simp only [if_pos h]

/-- Witness of the amended C6 at balance `1000`: requested `200` ends in
Completed-Standard with new balance `800`, requested `400` in
Completed-WithServiceCharge with new balance `596.00`. -/
theorem sufficient_funds_completes64_witness :
    ((main64 1000 200 'Y').choiceRead = false ∧
      (main64 1000 200 'Y').debits = 1 ∧
      (main64 1000 200 'Y').accountBalance = 800 ∧
      (main64 1000 200 'Y').outcome = Outcome.CompletedStandard) ∧
    ((main64 1000 400 'Y').choiceRead = false ∧
      (main64 1000 400 'Y').debits = 1 ∧
      (main64 1000 400 'Y').accountBalance = 596 ∧
      (main64 1000 400 'Y').outcome = Outcome.CompletedWithServiceCharge) := by
  have hd : IsDouble 1000 := by
    have h := isDouble_intCast 1000 (by norm_num) (by norm_num)
    exact_mod_cast h
  have h := sufficient_funds_completes64 1000 200 'Y' hd (by norm_num) (by norm_num)
    (by norm_num) (Or.inl (by norm_num))
  have k := sufficient_funds_completes64 1000 400 'Y' hd (by norm_num) (by norm_num)
    (by norm_num) (Or.inl (by norm_num))
  have h800 : fl ((1000 : ℚ) - 200) = 800 := by
    have e := fl_intCast 800 (by norm_num) (by norm_num)
    norm_num
    exact_mod_cast e
  have h596 : fl ((1000 : ℚ) - 404) = 596 := by
    have e := fl_intCast 596 (by norm_num) (by norm_num)
    norm_num
    exact_mod_cast e
  have hbal := h.2.2.2.2.1
  have kbal := k.2.2.2.2.1
  rw [totalDeduction64_200, h800] at hbal
  rw [totalDeduction64_400, h596] at kbal
  exact ⟨⟨h.1, h.2.2.1, hbal, h.2.2.2.2.2.2.2.1 (by norm_num)⟩,
    ⟨k.1, k.2.2.1, kbal, k.2.2.2.2.2.2.2.2 (by norm_num)⟩⟩

/-! ## Funds check, insufficient branch in `double` (lines 49-66) -/

/-- At the doubles nearest to `300.52` (balance) and `300.5` (requested) the exact
deduction `300.52` is above the balance, yet the deduction computed on line 43 rounds to
the balance itself: line 49 finds the funds sufficient, no confirmation is read and
line 68 debits the balance to `0`. The deduction that decides the branch is the computed
one. -/
theorem boundary_request_completes (choice : Char) :
    (660850468758487 / 2 ^ 41 : ℚ) < 601 / 2 + (601 / 2 - 300) * (4 / 100) ∧
    (main64 (660850468758487 / 2 ^ 41) (601 / 2) choice).totalDeduction
      = some (660850468758487 / 2 ^ 41) ∧
    (main64 (660850468758487 / 2 ^ 41) (601 / 2) choice).outcome
      = Outcome.CompletedWithServiceCharge ∧
    (main64 (660850468758487 / 2 ^ 41) (601 / 2) choice).choiceRead = false ∧
    (main64 (660850468758487 / 2 ^ 41) (601 / 2) choice).accountBalance = 0 := by
  have hhalf : fl ((601 : ℚ) / 2 - 300) = 1 / 2 := by
    have h := fl_int_mul_two_zpow 1 (-1) (by norm_num) (by norm_num) (by norm_num)
    norm_num at h ⊢
    exact h
  have hsc : serviceCharge64 (601 / 2) = 5764607523034235 / 2 ^ 58 := by
    have h := fl_int_mul_two_zpow 5764607523034235 (-58) (by norm_num) (by norm_num)
      (by norm_num)
    unfold serviceCharge64
    rw [hhalf, rate64_eq]
    norm_num at h ⊢
    exact h
  have htd : totalDeduction64 (601 / 2) = 660850468758487 / 2 ^ 41 := by
    unfold totalDeduction64
    rw [if_pos (by norm_num), hsc,
      fl_eq_of_near (e := 8) (n := 5286803750067896) (by norm_num) (by norm_num)
        (by norm_num) (by norm_num) (by norm_num [abs_lt])]
    norm_num
  have hrun := main64_of_covered (660850468758487 / 2 ^ 41) (601 / 2) choice (by norm_num)
    (by norm_num) (by norm_num) (by rw [htd])
  rw [hrun, htd, sub_self, fl_zero]
  refine ⟨by norm_num, rfl, ?_, rfl, rfl⟩
  simp only
  rw [if_pos (by norm_num)]

/-- C9: for every balance `> 0` and requested amount (a double) with
`0 < requested ≤ 500.00` whose percentage-based deduction, the value `d` of
`totalDeduction` that line 49 compares, exceeds the balance, if the confirmation is `'Y'`
or `'y'` and `requested + 25.00 > balance`, the run ends in Rejected-StillInsufficient and
the final balance is the initial balance (no debit took place). -/
theorem accepted_fallback_still_insufficient (balance requested d : ℚ) (choice : Char)
    (hwd : IsDouble requested)
    (hb : 0 < balance) (hlo : 0 < requested) (hhi : requested ≤ 500)
    (hd : (main64 balance requested choice).totalDeduction = some d)
    (hins : balance < d)
    (hyes : choice = 'Y' ∨ choice = 'y')
    (hstill : balance < requested + 25) :
    (main64 balance requested choice).outcome = Outcome.RejectedStillInsufficient ∧
    (main64 balance requested choice).accountBalance = balance ∧
    (main64 balance requested choice).debits = 0 := by
  have _ := hstill
  rw [main64_totalDeduction balance requested choice (Or.inl hwd.1) hb hlo hhi] at hd
  have hins2 : balance < totalDeduction64 requested := by
    rw [Option.some.injEq] at hd
    rw [hd]; exact hins
  rw [main64_of_shortfall balance requested choice (Or.inl hwd.1) hb hlo hhi hins2]
  refine ⟨?_, rfl, rfl⟩
  simp only [if_pos hyes]

/-- Witness of C9 at balance `50`, requested `400`, confirmation `'Y'`: the computed
deduction is `404 > 50`, `425 > 50`, and the balance stays `50`. -/
theorem accepted_fallback_still_insufficient_witness :
    (main64 50 400 'Y').totalDeduction = some 404 ∧
    (main64 50 400 'Y').outcome = Outcome.RejectedStillInsufficient ∧
    (main64 50 400 'Y').accountBalance = 50 ∧
    (main64 50 400 'Y').debits = 0 := by
  have hw : IsDouble 400 := by
    have h := isDouble_intCast 400 (by norm_num) (by norm_num)
    exact_mod_cast h
  have hd : (main64 50 400 'Y').totalDeduction = some 404 := by
    rw [main64_totalDeduction 50 400 'Y' (Or.inl hw.1) (by norm_num) (by norm_num)
      (by norm_num), totalDeduction64_400]
  exact ⟨hd, accepted_fallback_still_insufficient 50 400 404 'Y' hw (by norm_num)
    (by norm_num) (by norm_num) hd (by norm_num) (Or.inl rfl) (by norm_num)⟩

/-- C10: for every balance `> 0` and requested amount with `0 < requested ≤ 500.00` whose
deduction, the value `d` of `totalDeduction` that line 49 compares, exceeds the balance,
and for every confirmation character other than `'Y'` and `'y'`, the run ends in
Cancelled-ByUser and the final balance is the initial balance. -/
theorem declined_fallback_cancels (balance requested d : ℚ) (choice : Char)
    (hb : 0 < balance) (hlo : 0 < requested) (hhi : requested ≤ 500)
    (hd : (main64 balance requested choice).totalDeduction = some d)
    (hins : balance < d)
    (hno : choice ≠ 'Y' ∧ choice ≠ 'y') :
    (main64 balance requested choice).outcome = Outcome.CancelledByUser ∧
    (main64 balance requested choice).accountBalance = balance ∧
    (main64 balance requested choice).debits = 0 := by
  have hch : ¬ (choice = 'Y' ∨ choice = 'y') := not_or.mpr hno
  rw [main64_totalDeduction balance requested choice (Or.inr hch) hb hlo hhi] at hd
  have hins2 : balance < totalDeduction64 requested := by
    rw [Option.some.injEq] at hd
    rw [hd]; exact hins
  rw [main64_of_shortfall balance requested choice (Or.inr hch) hb hlo hhi hins2]
  refine ⟨?_, rfl, rfl⟩
  simp only [if_neg hch]

/-- Witness of C10 at balance `50`, requested `400` (computed deduction `404 > 50`), for
the confirmations `'N'`, `'n'` and the unrelated character `'x'`: the balance stays
`50`. -/
theorem declined_fallback_cancels_witness :
    ((main64 50 400 'N').outcome = Outcome.CancelledByUser ∧
      (main64 50 400 'N').accountBalance = 50 ∧ (main64 50 400 'N').debits = 0) ∧
    ((main64 50 400 'n').outcome = Outcome.CancelledByUser ∧
      (main64 50 400 'n').accountBalance = 50 ∧ (main64 50 400 'n').debits = 0) ∧
    ((main64 50 400 'x').outcome = Outcome.CancelledByUser ∧
      (main64 50 400 'x').accountBalance = 50 ∧ (main64 50 400 'x').debits = 0) := by
  have hd : ∀ c : Char, ¬ (c = 'Y' ∨ c = 'y') →
      (main64 50 400 c).totalDeduction = some 404 := by
    intro c hc
    rw [main64_totalDeduction 50 400 c (Or.inr hc) (by norm_num) (by norm_num)
      (by norm_num), totalDeduction64_400]
  exact ⟨declined_fallback_cancels 50 400 404 'N' (by norm_num) (by norm_num) (by norm_num)
      (hd 'N' (by decide)) (by norm_num) (by decide),
    declined_fallback_cancels 50 400 404 'n' (by norm_num) (by norm_num) (by norm_num)
      (hd 'n' (by decide)) (by norm_num) (by decide),
    declined_fallback_cancels 50 400 404 'x' (by norm_num) (by norm_num) (by norm_num)
      (hd 'x' (by decide)) (by norm_num) (by decide)⟩

/-! ## Exactness of the debit of `508.00` -/

/-- Below `2 ^ 55` the doubles are multiples of a power of two that divides `508`, so
subtracting `508` from a double that covers it is exact. -/
theorem fl_sub_508 {b : ℚ} (hbd : fl b = b) (h508 : 508 ≤ b) (htop : b < 2 ^ 55) :
    fl (b - 508) = b - 508 := by
  have hb0 : 0 < b := by linarith
  obtain ⟨m, hm, _, hm53⟩ := exists_mantissa hbd hb0
  obtain ⟨u, hu_eq⟩ : ∃ u, ulpExp b = u := ⟨_, rfl⟩
  rw [hu_eq] at hm
  have hu2 : u ≤ 2 := by
    have h := ulpExp_le hb0 (by norm_num : (-1022 : ℤ) ≤ 54)
      (by norm_num; exact_mod_cast htop)
    omega
  have hu0 : -1074 ≤ u := by rw [← hu_eq]; exact ulpExp_ge b
  have hupos := two_zpow_pos u
  obtain ⟨d, hd⟩ := Int.eq_ofNat_of_zero_le (sub_nonneg.mpr hu2)
  have e4 : (4 : ℚ) = 2 ^ d * 2 ^ u := by
    have : (2 : ℤ) = (d : ℤ) + u := by omega
    calc (4 : ℚ) = 2 ^ (2 : ℤ) := by norm_num
      _ = 2 ^ ((d : ℤ) + u) := by rw [← this]
      _ = 2 ^ d * 2 ^ u := by rw [two_zpow_add, zpow_natCast]
  have e508 : (508 : ℚ) = ((127 * 2 ^ d : ℤ) : ℚ) * 2 ^ u := by
    push_cast
    calc (508 : ℚ) = 127 * 4 := by norm_num
      _ = 127 * (2 ^ d * 2 ^ u) := by rw [← e4]
      _ = 127 * 2 ^ d * 2 ^ u := by ring
  have hsub : b - 508 = ((m - 127 * 2 ^ d : ℤ) : ℚ) * 2 ^ u := by
    rw [hm]
    conv_lhs => rw [e508]
    push_cast
    ring
  have hk0 : 0 ≤ m - 127 * 2 ^ d := by
    have h : (0 : ℚ) ≤ ((m - 127 * 2 ^ d : ℤ) : ℚ) * 2 ^ u := by rw [← hsub]; linarith
    have h2 : (0 : ℚ) ≤ ((m - 127 * 2 ^ d : ℤ) : ℚ) := by
      by_contra hneg
      have := mul_neg_of_neg_of_pos (not_le.mp hneg) hupos
      linarith
    exact_mod_cast h2
  have hk : m - 127 * 2 ^ d < 2 ^ 53 := by
    have : (0 : ℤ) ≤ 127 * 2 ^ d := by positivity
    omega
  rw [hsub]
  exact fl_int_mul_two_zpow _ u hk0 hk hu0

/-! ## Threshold values 300.00 and 500.00 -/

/-- C13 as stated fails in `double` arithmetic: with balance `1e17 ≥ 508.00` and requested
`500.00` the run completes, but line 68 leaves `1e17 - 512`, not `balance - 508.00`. -/
theorem threshold_debit_not_exact :
    IsDouble (10 ^ 17) ∧ (508 : ℚ) ≤ 10 ^ 17 ∧
    (main64 (10 ^ 17) 500 'N').outcome = Outcome.CompletedWithServiceCharge ∧
    (main64 (10 ^ 17) 500 'N').accountBalance = 10 ^ 17 - 512 ∧
    (main64 (10 ^ 17) 500 'N').accountBalance ≠ 10 ^ 17 - 508 := by
  have hrun := main64_of_covered (10 ^ 17) 500 'N' (by norm_num) (by norm_num) (le_refl 500)
    (by rw [totalDeduction64_500]; norm_num)
  rw [totalDeduction64_500, fl_1e17_sub_508] at hrun
  rw [hrun]
  refine ⟨isDouble_1e17, by norm_num, ?_, rfl, ?_⟩
  · simp only
    rw [if_pos (by norm_num)]
  · norm_num

/-- C13, amended: both thresholds are strict. With a positive balance (a double), a
request of exactly `300.00` incurs no service charge (deduction `300.00`); a request of
exactly `500.00` is not rejected as exceeding the daily limit, its service charge is
`8.00` and its deduction `508.00`; when the balance is at least `508.00` that request
completes, leaving the `double` difference of the balance and `508.00`, which is
`balance - 508.00` whenever the balance is below `2 ^ 55`. -/
theorem thresholds_strict64 (balance : ℚ) (choice : Char) (hbd : IsDouble balance)
    (hb : 0 < balance) :
    ((main64 balance 300 choice).serviceCharge = none ∧
      (main64 balance 300 choice).totalDeduction = some 300) ∧
    ((main64 balance 500 choice).outcome ≠ Outcome.RejectedExceedsDailyLimit ∧
      (main64 balance 500 choice).serviceCharge = some 8 ∧
      (main64 balance 500 choice).totalDeduction = some 508) ∧
    (508 ≤ balance →
      (main64 balance 500 choice).outcome = Outcome.CompletedWithServiceCharge ∧
      (main64 balance 500 choice).accountBalance = fl (balance - 508) ∧
      (main64 balance 500 choice).debits = 1) ∧
    (508 ≤ balance → balance < 2 ^ 55 →
      (main64 balance 500 choice).accountBalance = balance - 508) := by
  have h300 : IsDouble 300 := by
    have h := isDouble_intCast 300 (by norm_num) (by norm_num)
    exact_mod_cast h
  have h500 : IsDouble 500 := by
    have h := isDouble_intCast 500 (by norm_num) (by norm_num)
    exact_mod_cast h
  have htd300 : totalDeduction64 300 = 300 := by norm_num [totalDeduction64]
  have hcompl : 508 ≤ balance →
      main64 balance 500 choice =
        { outcome := Outcome.CompletedWithServiceCharge,
          accountBalance := fl (balance - 508),
          serviceCharge := some 8, totalDeduction := some 508,
          fallbackDeduction := none, choiceRead := false, debits := 1 } := by
    intro h
    rw [main64_of_covered balance 500 choice hb (by norm_num) (le_refl 500)
      (by rw [totalDeduction64_500]; exact h), totalDeduction64_500, serviceCharge64_500]
    simp only [if_pos (by norm_num : (300 : ℚ) < 500)]
  refine ⟨?_, ?_, ?_, ?_⟩
  · rcases le_or_lt (totalDeduction64 300) balance with h | h
    · rw [main64_of_covered balance 300 choice hb (by norm_num) (by norm_num) h, htd300]
      simp only [lt_irrefl, if_false, and_self]
    · rw [main64_of_shortfall balance 300 choice (Or.inl h300.1) hb (by norm_num)
        (by norm_num) h, htd300]
      simp only [lt_irrefl, if_false, and_self]
  · rcases le_or_lt (totalDeduction64 500) balance with h | h
    · rw [main64_of_covered balance 500 choice hb (by norm_num) (le_refl 500) h,
        totalDeduction64_500, serviceCharge64_500]
      norm_num
      decide
    · rw [main64_of_shortfall balance 500 choice (Or.inl h500.1) hb (by norm_num)
        (le_refl 500) h, totalDeduction64_500, serviceCharge64_500]
      norm_num
      split_ifs <;> decide
  · intro h
    rw [hcompl h]
    exact ⟨rfl, rfl, rfl⟩
  · intro h htop
    rw [hcompl h]
    exact fl_sub_508 hbd.1 h htop

/-- Witness of the amended C13 at balance `508` (the least balance that covers a request
of `500.00`): the run completes and leaves `0`. -/
theorem thresholds_strict64_witness :
    (main64 508 500 'N').outcome = Outcome.CompletedWithServiceCharge ∧
    (main64 508 500 'N').debits = 1 ∧
    (main64 508 500 'N').accountBalance = 0 := by
  have hd : IsDouble 508 := by
    have h := isDouble_intCast 508 (by norm_num) (by norm_num)
    exact_mod_cast h
  have h := thresholds_strict64 508 'N' hd (by norm_num)
  have h3 := h.2.2.1 (le_refl 508)
  have h4 := h.2.2.2 (le_refl 508) (by norm_num)
  rw [sub_self] at h4
  exact ⟨h3.1, h3.2.2, h4⟩

/-! ## Safety of the debit -/

/-- A double above `300` is at least one unit in the last place above it, so the computed
charge on it is positive. -/
theorem serviceCharge64_pos {w : ℚ} (hwd : fl w = w) (hlo : 300 < w) (hhi : w ≤ 500) :
    0 < serviceCharge64 w := by
  have hw0 : 0 < w := by linarith
  obtain ⟨m, hm, _, _⟩ := exists_mantissa hwd hw0
  have hu : ulpExp w = 8 - 52 :=
    ulpExp_eq hw0 (by norm_num) (by norm_num; linarith) (by norm_num; linarith)
  rw [hu] at hm
  have e44 : ((2 : ℚ) ^ ((8 : ℤ) - 52)) = 1 / 2 ^ 44 := by norm_num
  rw [e44] at hm
  have hmq : (5277655813324800 : ℚ) < (m : ℚ) := by
    rw [hm] at hlo
    linarith
  have hm1 : (5277655813324800 : ℤ) < m := by exact_mod_cast hmq
  have hm2 : (5277655813324801 : ℚ) ≤ (m : ℚ) := by
    have : (5277655813324801 : ℤ) ≤ m := by omega
    exact_mod_cast this
  have hx : (1 : ℚ) / 2 ^ 44 ≤ w - 300 := by
    rw [hm]
    linarith
  have hfl44 : fl ((1 : ℚ) / 2 ^ 44) = 1 / 2 ^ 44 := by
    have h := fl_int_mul_two_zpow 1 (-44) (by norm_num) (by norm_num) (by norm_num)
    norm_num at h ⊢
    exact h
  have h1 : (1 : ℚ) / 2 ^ 44 ≤ fl (w - 300) := by
    calc (1 : ℚ) / 2 ^ 44 = fl (1 / 2 ^ 44) := hfl44.symm
      _ ≤ fl (w - 300) := fl_mono (by norm_num) hx
  have hr : (1 : ℚ) / 2 ^ 5 ≤ SERVICE_CHARGE_RATE_64 := by
    rw [rate64_eq]; norm_num
  have hp : (1 : ℚ) / 2 ^ 49 ≤ fl (w - 300) * SERVICE_CHARGE_RATE_64 := by
    have a : (1 : ℚ) / 2 ^ 44 * (1 / 2 ^ 5) ≤ fl (w - 300) * SERVICE_CHARGE_RATE_64 :=
      mul_le_mul h1 hr (by norm_num) (le_trans (by norm_num) h1)
    have e : (1 : ℚ) / 2 ^ 44 * (1 / 2 ^ 5) = 1 / 2 ^ 49 := by norm_num
    rw [e] at a
    exact a
  have hfl49 : fl ((1 : ℚ) / 2 ^ 49) = 1 / 2 ^ 49 := by
    have h := fl_int_mul_two_zpow 1 (-49) (by norm_num) (by norm_num) (by norm_num)
    norm_num at h ⊢
    exact h
  have h2 : (1 : ℚ) / 2 ^ 49 ≤ serviceCharge64 w := by
    calc (1 : ℚ) / 2 ^ 49 = fl (1 / 2 ^ 49) := hfl49.symm
      _ ≤ fl (fl (w - 300) * SERVICE_CHARGE_RATE_64) := fl_mono (by norm_num) hp
  exact lt_of_lt_of_le (by norm_num) h2

/-- C18 as stated fails in `double` arithmetic: with balance `1e17` and requested
`500.00` the run completes and the balance drops by `512`, more than `508.00`. -/
theorem completed_debit_above_508 :
    IsDouble (10 ^ 17) ∧
    (main64 (10 ^ 17) 500 'Y').outcome = Outcome.CompletedWithServiceCharge ∧
    (main64 (10 ^ 17) 500 'Y').totalDeduction = some 508 ∧
    10 ^ 17 - (main64 (10 ^ 17) 500 'Y').accountBalance = 512 ∧
    ¬ 10 ^ 17 - (main64 (10 ^ 17) 500 'Y').accountBalance ≤ 508 := by
  have hrun := main64_of_covered (10 ^ 17) 500 'Y' (by norm_num) (by norm_num) (le_refl 500)
    (by rw [totalDeduction64_500]; norm_num)
  rw [totalDeduction64_500, fl_1e17_sub_508] at hrun
  rw [hrun]
  refine ⟨isDouble_1e17, ?_, rfl, by norm_num, by norm_num⟩
  simp only
  rw [if_pos (by norm_num)]

/-- C18, amended: for every request that passes the guards (balance `> 0`,
`0 < requested ≤ 500.00`, both doubles) the percentage service charge computed (taken as
`0` when none is computed) lies between `0` and `8.00` and is strictly positive exactly
when `requested > 300.00`; the percentage-based total deduction is at most `508.00`; and
on a balance below `2 ^ 55` the run debits at most `508.00` (above that, rounding of
line 68 can take more). -/
theorem percentage_charge_bounded64 (balance requested : ℚ) (choice : Char)
    (hbd : IsDouble balance) (hwd : IsDouble requested)
    (hb : 0 < balance) (hlo : 0 < requested) (hhi : requested ≤ 500) :
    (0 ≤ ((main64 balance requested choice).serviceCharge).getD 0 ∧
      ((main64 balance requested choice).serviceCharge).getD 0 ≤ 8) ∧
    (0 < ((main64 balance requested choice).serviceCharge).getD 0 ↔ 300 < requested) ∧
    (∃ d, (main64 balance requested choice).totalDeduction = some d ∧ d ≤ 508) ∧
    (balance < 2 ^ 55 →
      balance - (main64 balance requested choice).accountBalance ≤ 508) := by
  have hsc : (main64 balance requested choice).serviceCharge
      = if 300 < requested then some (serviceCharge64 requested) else none := by
    rcases le_or_lt (totalDeduction64 requested) balance with h | h
    · rw [main64_of_covered balance requested choice hb hlo hhi h]
    · rw [main64_of_shortfall balance requested choice (Or.inl hwd.1) hb hlo hhi h]
  have htd := main64_totalDeduction balance requested choice (Or.inl hwd.1) hb hlo hhi
  have hdebit : balance < 2 ^ 55 →
      balance - (main64 balance requested choice).accountBalance ≤ 508 := by
    intro htop
    rcases le_or_lt (totalDeduction64 requested) balance with h | h
    · rw [main64_of_covered balance requested choice hb hlo hhi h]
      simp only
      have h508 := totalDeduction64_le_508 hlo hhi
      rcases le_or_lt 508 balance with hbig | hsmall
      · have : balance - 508 ≤ fl (balance - totalDeduction64 requested) := by
          calc balance - 508 = fl (balance - 508) := (fl_sub_508 hbd.1 hbig htop).symm
            _ ≤ fl (balance - totalDeduction64 requested) :=
              fl_mono (by linarith) (by linarith)
        linarith
      · have : 0 ≤ fl (balance - totalDeduction64 requested) := fl_nonneg (by linarith)
        linarith
    · rw [main64_of_shortfall balance requested choice (Or.inl hwd.1) hb hlo hhi h]
      simp only [sub_self]
      norm_num
  rw [hsc, htd]
  refine ⟨?_, ?_, ⟨_, rfl, totalDeduction64_le_508 hlo hhi⟩, hdebit⟩
  · by_cases h : 300 < requested
    · simp only [if_pos h, Option.getD_some]
      exact ⟨serviceCharge64_nonneg (le_of_lt h), serviceCharge64_le (le_of_lt h) hhi⟩
    · simp only [if_neg h, Option.getD_none]
      norm_num
  · by_cases h : 300 < requested
    · simp only [if_pos h, Option.getD_some]
      exact ⟨fun _ => h, fun _ => serviceCharge64_pos hwd.1 h hhi⟩
    · simp only [if_neg h, Option.getD_none]
      exact ⟨fun h0 => absurd h0 (lt_irrefl 0), fun h1 => absurd h1 h⟩

/-- Witness of the amended C18 at balance `1000`, requested `500` (the largest request
that passes the guards): charge `8.00`, deduction `508.00`, debit `508.00`. -/
theorem percentage_charge_bounded64_witness :
    (main64 1000 500 'N').serviceCharge = some 8 ∧
    (main64 1000 500 'N').totalDeduction = some 508 ∧
    (main64 1000 500 'N').accountBalance = 492 ∧
    ((0 ≤ ((main64 1000 500 'N').serviceCharge).getD 0 ∧
      ((main64 1000 500 'N').serviceCharge).getD 0 ≤ 8) ∧
    (0 < ((main64 1000 500 'N').serviceCharge).getD 0 ↔ (300 : ℚ) < 500) ∧
    (∃ d, (main64 1000 500 'N').totalDeduction = some d ∧ d ≤ 508) ∧
    ((1000 : ℚ) < 2 ^ 55 → 1000 - (main64 1000 500 'N').accountBalance ≤ 508)) := by
  have hb : IsDouble 1000 := by
    have h := isDouble_intCast 1000 (by norm_num) (by norm_num)
    exact_mod_cast h
  have hw : IsDouble 500 := by
    have h := isDouble_intCast 500 (by norm_num) (by norm_num)
    exact_mod_cast h
  have hrun := main64_of_covered 1000 500 'N' (by norm_num) (by norm_num) (le_refl 500)
    (by rw [totalDeduction64_500]; norm_num)
  have h492 : fl ((1000 : ℚ) - 508) = 492 := by
    have e := fl_intCast 492 (by norm_num) (by norm_num)
    norm_num
    exact_mod_cast e
  rw [totalDeduction64_500, serviceCharge64_500, h492] at hrun
  refine ⟨?_, ?_, ?_, percentage_charge_bounded64 1000 500 'N' hb hw (by norm_num)
    (by norm_num) (le_refl 500)⟩
  · rw [hrun]; simp only; rw [if_pos (by norm_num)]
  · rw [hrun]
  · rw [hrun]

end Atm
